import Mathlib

/-!
# go-computing-provider: hardware parser, leases, GPU pool, teardown

A shallow embedding of `getHardwareDetail`, `ReNewJob`, `watchContainerRunningTime`,
`DeploySpaceTask`, `deleteJob`, the environment handling of `yamlToK8s` and the host
names of `ReceiveJob` and `RedeployJob` from `computing/cp_service.go`, together with the library functions they call
(`strings.Split`, `strings.Contains`, `strings.TrimSpace`, `strings.ReplaceAll`,
`strconv.ParseInt`), the Redis commands the lease code sends and the cluster calls
the teardown makes.

Go strings are modelled as Lean strings, i.e. as sequences of Unicode code
points. The descriptions reach the parser from a decoded JSON document, so they
are valid UTF-8, and on valid UTF-8 the byte-level substring operations of
package `strings` agree with the same operations on code points. The separator
`"·"` (U+00B7, bytes C2 B7) is a single code point.
-/

namespace unicode

/-- Go `unicode.IsSpace`: the Latin-1 switch, then the `White_Space` table. -/
def IsSpace (r : Char) : Bool :=
  let n := r.toNat
  if n ≤ 0xFF then
    n == 0x09 || n == 0x0A || n == 0x0B || n == 0x0C || n == 0x0D || n == 0x20
      || n == 0x85 || n == 0xA0
  else
    n == 0x1680 || (0x2000 ≤ n && n ≤ 0x200A) || n == 0x2028 || n == 0x2029
      || n == 0x202F || n == 0x205F || n == 0x3000

end unicode

namespace strings

/-- Substring test on code points: `sub` occurs in the list at some offset. -/
def containsChars : List Char → List Char → Bool
  | [], sub => sub.isPrefixOf []
  | c :: cs, sub => sub.isPrefixOf (c :: cs) || containsChars cs sub

/-- Go `strings.Contains(s, substr)`. -/
def Contains (s substr : String) : Bool :=
  containsChars s.data substr.data

/-- Put a character in front of the first piece of a split. -/
def consHead (c : Char) : List (List Char) → List (List Char)
  | [] => [[c]]
  | p :: ps => (c :: p) :: ps

/-- Leftmost, non-overlapping split at a non-empty separator. The counter is the
number of characters still to be skipped because they belong to the separator
occurrence that was just matched. -/
def splitGo (sep : List Char) : List Char → Nat → List (List Char)
  | [], _ => [[]]
  | _ :: cs, skip + 1 => splitGo sep cs skip
  | c :: cs, 0 =>
    if sep.isPrefixOf (c :: cs) then [] :: splitGo sep cs (sep.length - 1)
    else consHead c (splitGo sep cs 0)

/-- Go `strings.Split(s, sep)`: with an empty separator the string is exploded
into its code points, otherwise it is cut at every occurrence of `sep`. -/
def Split (s sep : String) : List String :=
  if sep.data = [] then s.data.map (fun c => String.mk [c])
  else (splitGo sep.data s.data 0).map String.mk

/-- Go `strings.TrimSpace(s)`: leading and trailing white space removed. -/
def TrimSpace (s : String) : String :=
  String.mk ((s.data.dropWhile unicode.IsSpace).rdropWhile unicode.IsSpace)

/-- Leftmost, non-overlapping replacement of a non-empty `old`; the counter is
the number of characters of the matched occurrence still to be dropped. -/
def replaceGo (old new : List Char) : List Char → Nat → List Char
  | [], _ => []
  | _ :: cs, skip + 1 => replaceGo old new cs skip
  | c :: cs, 0 =>
    if old.isPrefixOf (c :: cs) then new ++ replaceGo old new cs (old.length - 1)
    else c :: replaceGo old new cs 0

/-- Go `strings.ReplaceAll(s, old, new)`: with an empty `old` the replacement is
inserted before every code point and at the end. -/
def ReplaceAll (s old new : String) : String :=
  if old.data = [] then String.mk (new.data ++ s.data.flatMap (fun c => c :: new.data))
  else String.mk (replaceGo old.data new.data s.data 0)

end strings

namespace strconv

/-- The two error kinds of a `*strconv.NumError`. -/
inductive NumError where
  | ErrSyntax
  | ErrRange
  deriving DecidableEq, Repr

/-- Go `lower(c)`: `c | ('x' - 'X')`. -/
def lower (c : Nat) : Nat := c ||| 0x20

/-- The digit a byte stands for in `ParseUint`; `none` is the `default` case of
the switch. Every byte of a multi-byte code point is at least 0x80 and so falls
in the `default` case. -/
def digitVal (c : Char) : Option Nat :=
  let b := c.toNat
  if 0x80 ≤ b then none
  else if 48 ≤ b ∧ b ≤ 57 then some (b - 48)
  else if 97 ≤ lower b ∧ lower b ≤ 122 then some (lower b - 97 + 10)
  else none

/-- Value of `maxUint64`. -/
def maxUint64 : Nat := 2 ^ 64 - 1

/-- The digit loop of `ParseUint(s, 10, 64)` with accumulator `n`. -/
def parseUintLoop : List Char → Nat → Nat × Option NumError
  | [], n => (n, none)
  | c :: cs, n =>
    match digitVal c with
    | none => (0, some NumError.ErrSyntax)
    | some d =>
      if d ≥ 10 then (0, some NumError.ErrSyntax)
      else if n ≥ maxUint64 / 10 + 1 then (maxUint64, some NumError.ErrRange)
      else
        let n10 := (n * 10) % 2 ^ 64
        let n1 := (n10 + d) % 2 ^ 64
        if n1 < n10 ∨ n1 > maxUint64 then (maxUint64, some NumError.ErrRange)
        else parseUintLoop cs n1

/-- Go `strconv.ParseUint(s, 10, 64)`. -/
def ParseUint (s : List Char) : Nat × Option NumError :=
  if s = [] then (0, some NumError.ErrSyntax) else parseUintLoop s 0

/-- Conversion to `int64` with wrap-around. -/
def int64 (x : Int) : Int := (x + 2 ^ 63) % 2 ^ 64 - 2 ^ 63

/-- The part of `ParseInt` after the sign has been picked off. -/
def parseIntSigned (neg : Bool) (s : List Char) : Int × Option NumError :=
  match ParseUint s with
  | (_, some NumError.ErrSyntax) => (0, some NumError.ErrSyntax)
  | (un, _) =>
    let cutoff : Nat := 2 ^ 63
    if !neg && un ≥ cutoff then (int64 (cutoff - 1 : Nat), some NumError.ErrRange)
    else if neg && un > cutoff then (int64 (-(cutoff : Int)), some NumError.ErrRange)
    else
      let n := int64 un
      (if neg then int64 (-n) else n, none)

/-- Go `strconv.ParseInt(s, 10, 64)` on the code points of `s`. -/
def parseIntChars : List Char → Int × Option NumError
  | [] => (0, some NumError.ErrSyntax)
  | c :: cs =>
    if c = '+' then parseIntSigned false cs
    else if c = '-' then parseIntSigned true cs
    else parseIntSigned false (c :: cs)

/-- Go `strconv.ParseInt(s, 10, 64)`: the value and the error (`none` is `nil`). -/
def ParseInt (s : String) : Int × Option NumError :=
  parseIntChars s.data

end strconv

namespace models

/-- The `Specification` struct of `models/cp.go`. -/
structure Specification where
  Quantity : Int
  Unit : String
  deriving DecidableEq, Repr

/-- Modelled from the spec: the `Storage` field, which `getHardwareDetail` assigns
and the spec lists in its ResourceSpec, is absent from the declaration of
`Resource` in `models/cp.go`; `Cpu`, `Memory` and `Gpu` are from that declaration. -/
structure Resource where
  Cpu : Specification
  Memory : Specification
  Gpu : Specification
  Storage : Specification
  deriving DecidableEq, Repr

/-- The zero value of `Resource`, the initial value of `var hardwareResource`. -/
def Resource.zero : Resource :=
  { Cpu := ⟨0, ""⟩, Memory := ⟨0, ""⟩, Gpu := ⟨0, ""⟩, Storage := ⟨0, ""⟩ }

end models

namespace computing

open models

/-- The function `getHardwareDetail` of `computing/cp_service.go`. The result
`none` is a run-time panic (index out of range on one of the slices). -/
def getHardwareDetail (description : String) : Option Resource := do
  let hardwareResource := Resource.zero
  let confSplits := strings.Split description "·"
  let confSplits0 ← confSplits[0]?
  let hardwareResource :=
    if strings.Contains confSplits0 "CPU" then
      { hardwareResource with Gpu := ⟨0, ""⟩ }
    else
      let oldName := strings.TrimSpace confSplits0
      { hardwareResource with Gpu := ⟨1, strings.ReplaceAll oldName "Nvidia" "NVIDIA"⟩ }
  let confSplits1 ← confSplits[1]?
  let cpuSplits := strings.Split confSplits1 " "
  let cpuSplits1 ← cpuSplits[1]?
  let cores := (strconv.ParseInt cpuSplits1).1
  let cpuSplits2 ← cpuSplits[2]?
  let hardwareResource := { hardwareResource with Cpu := ⟨cores, cpuSplits2⟩ }
  let confSplits2 ← confSplits[2]?
  let memSplits := strings.Split confSplits2 " "
  let memSplits1 ← memSplits[1]?
  let mem := (strconv.ParseInt memSplits1).1
  let memSplits2 ← memSplits[2]?
  let hardwareResource :=
    { hardwareResource with Memory := ⟨mem, strings.ReplaceAll memSplits2 "B" ""⟩ }
  let hardwareResource := { hardwareResource with Storage := ⟨30, "Gi"⟩ }
  return hardwareResource


/-- The JSON body bound by `ReNewJob`: `job_uuid` and `duration`. -/
structure RenewJobData where
  JobUuid : String
  Duration : Int
  deriving DecidableEq, Repr

/-- The bodies the handler passes to `c.JSON`. -/
inductive JSONBody where
  /-- The body `gin.H{"error": err.Error()}`. -/
  | bindError
  /-- The body with `"status": "failed"` and the expiration message. -/
  | failedExpired
  /-- The body `{"status": "success"}`. -/
  | statusSuccess
  /-- The body `common.CreateSuccessResponse("success")`. -/
  | createSuccess
  deriving DecidableEq, Repr

end computing

namespace redis

/-- What a key of the store holds: a string with an optional time to live in
seconds, or a hash. -/
inductive Value where
  | str (value : String) (ttl : Option Int)
  | hash (fields : List (String × String))
  deriving DecidableEq, Repr

/-- The keyspace: key and value pairs, each key at most once. -/
abbrev Store := List (String × Value)

/-- The commands the lease code sends through `conn.Do`. -/
inductive Command where
  | HMGET (key : String) (fields : List String)
  | HSET (key : String) (fieldValues : List (String × String))
  | SETEX (key value : String) (seconds : Int)
  deriving DecidableEq, Repr

/-- The reply of the server to a command, or the error of `conn.Do`. -/
inductive Reply where
  | array (items : List (Option String))
  | ok
  | error
  deriving DecidableEq, Repr

/-- A connection taken from the pool: the store behind it, whether the
connection is broken (then every `Do` fails and reaches no server), and the
commands passed to `Do` so far, oldest first. -/
structure Conn where
  store : Store
  broken : Bool
  issued : List Command
  deriving DecidableEq, Repr

/-- Set `key` to `v`, replacing what it held. -/
def put (key : String) (v : Value) : Store → Store
  | [] => [(key, v)]
  | (k, w) :: rest => if k = key then (key, v) :: rest else (k, w) :: put key v rest

/-- Set one field of a hash. -/
def setField (field value : String) : List (String × String) → List (String × String)
  | [] => [(field, value)]
  | (f, w) :: rest =>
    if f = field then (field, value) :: rest else (f, w) :: setField field value rest

/-- The effect of a command on the store and the reply of the server. A key
that holds a string answers a hash command with a type error; `SET` replaces
a key of any type and rejects a time to live that is not positive. -/
def exec (store : Store) : Command → Store × Reply
  | Command.HMGET key fields =>
    match store.lookup key with
    | none => (store, Reply.array (fields.map (fun _ => none)))
    | some (Value.hash fvs) => (store, Reply.array (fields.map (fun f => fvs.lookup f)))
    | some (Value.str _ _) => (store, Reply.error)
  | Command.HSET key fieldValues =>
    match store.lookup key with
    | none =>
      (put key (Value.hash (fieldValues.foldl (fun h fv => setField fv.1 fv.2 h) [])) store,
        Reply.ok)
    | some (Value.hash fvs) =>
      (put key (Value.hash (fieldValues.foldl (fun h fv => setField fv.1 fv.2 h) fvs)) store,
        Reply.ok)
    | some (Value.str _ _) => (store, Reply.error)
  | Command.SETEX key value seconds =>
    if seconds ≤ 0 then (store, Reply.error)
    else (put key (Value.str value (some seconds)) store, Reply.ok)

/-- The call `conn.Do(cmd)`: the command is recorded as issued; a broken
connection returns an error and leaves the store alone. -/
def Conn.Do (conn : Conn) (cmd : Command) : Conn × Reply :=
  if conn.broken then ({ conn with issued := conn.issued ++ [cmd] }, Reply.error)
  else
    let r := exec conn.store cmd
    ({ conn with store := r.1, issued := conn.issued ++ [cmd] }, r.2)

/-- The helper `redis.Strings(reply, err)`: the slice (`nil` on error, a nil item
as the empty string) and whether the error is non-nil. -/
def Strings : Reply → List String × Bool
  | Reply.array items => (items.map (fun i => i.getD ""), false)
  | Reply.ok => ([], true)
  | Reply.error => ([], true)

end redis

namespace computing

/-- What a run of a handler leaves behind: the connection (store and commands
issued) and the bodies written with `c.JSON`, oldest first, each with its
status code. -/
structure Handled where
  conn : redis.Conn
  written : List (Nat × JSONBody)
  deriving DecidableEq, Repr

/-- The fields `ReNewJob` reads with `HMGET`, in the order of the source. -/
def renewFields : List String :=
  ["k8s_namespace", "space_name", "expire_time", "space_uuid"]

/-- The handler `ReNewJob` of `computing/cp_service.go`. `REDIS_FULL_PREFIX` is the
constant of package `constants`; `request` is the outcome of `c.ShouldBindJSON`
(`none` when binding fails); `nowLeft` and `nowExpire` are the readings of
`time.Now().Unix()` at its two call sites. The field and value pairs of `HSET` are
listed in the order of the map literal (Go ranges over the map in any order). -/
def ReNewJob (REDIS_FULL_PREFIX : String) (request : Option RenewJobData)
    (nowLeft nowExpire : Int) (conn : redis.Conn) : Handled :=
  match request with
  | none => { conn := conn, written := [(400, JSONBody.bindError)] }
  | some jobData =>
    let redisKey := REDIS_FULL_PREFIX ++ jobData.JobUuid
    let got := conn.Do (redis.Command.HMGET redisKey renewFields)
    let conn := got.1
    let valuesStr := (redis.Strings got.2).1
    let err := (redis.Strings got.2).2
    let written : List (Nat × JSONBody) :=
      if err then [(200, JSONBody.failedExpired)] else []
    -- the `var` block and the `if len(valuesStr) >= 4`; `none` is the early return
    let vars : Option (String × String × Int × String) :=
      if valuesStr.length ≥ 4 then
        let namespace_ := valuesStr.getD 0 ""
        let spaceName := valuesStr.getD 1 ""
        let expireTimeStr := valuesStr.getD 2 ""
        let spaceUuid := valuesStr.getD 3 ""
        match strconv.ParseInt (strings.TrimSpace expireTimeStr) with
        | (_, some _) => none
        | (expireTime, none) =>
          some (namespace_, spaceName, strconv.int64 (expireTime - nowLeft), spaceUuid)
      else some ("", "", 0, "")
    match vars with
    | none => { conn := conn, written := written }
    | some (namespace_, spaceName, leftTime, spaceUuid) =>
      let r : Handled :=
        if leftTime < 0 then
          { conn := conn, written := written ++ [(200, JSONBody.failedExpired)] }
        else
          let fields : List (String × String) :=
            [("k8s_namespace", namespace_),
             ("space_name", spaceName),
             ("expire_time",
               toString (strconv.int64 (strconv.int64 (nowExpire + leftTime) + jobData.Duration))),
             ("space_uuid", spaceUuid)]
          let conn := (conn.Do (redis.Command.HSET redisKey fields)).1
          let conn := (conn.Do (redis.Command.SETEX jobData.JobUuid "wait-delete"
            (strconv.int64 (leftTime + jobData.Duration)))).1
          { conn := conn, written := written }
      { r with written := r.written ++
          [(200, JSONBody.statusSuccess), (200, JSONBody.createSuccess)] }

end computing


namespace computing

/-- The registration part of `watchContainerRunningTime` of `computing/cp_service.go`:
the `SET` with `EX` on the primary key and, when that succeeds, the `HSET` on the
lease hash. `now` is the reading of `time.Now().Unix()`. The goroutine that
subscribes to the expiry events afterwards is left out. The field and value pairs
of `HSET` are listed in the order of the map literal. -/
def watchContainerRunningTime (REDIS_FULL_PREFIX key namespace_ spaceUuid : String)
    (runTime now : Int) (conn : redis.Conn) : redis.Conn :=
  let got := conn.Do (redis.Command.SETEX key "wait-delete" runTime)
  let conn := got.1
  if got.2 = redis.Reply.error then conn
  else
    let fields : List (String × String) :=
      [("k8s_namespace", namespace_),
       ("expire_time", toString (strconv.int64 (now + runTime))),
       ("space_uuid", spaceUuid)]
    (conn.Do (redis.Command.HSET (REDIS_FULL_PREFIX ++ key) fields)).1

/-- Modelled from the spec: the declaration of `runTaskGpuResource` is not in the
source files at hand; by the spec's GpuPool and by the methods `Load`, `Store` and
`Delete` that `DeploySpaceTask` calls on it, it is a map from GPU model name to an
`int` count. Here: the value stored under each key, if any. -/
abbrev GpuPool := String → Option Int

namespace GpuPool

/-- The empty map of a fresh process. -/
def empty : GpuPool := fun _ => none

/-- The method `Load`. -/
def Load (m : GpuPool) (key : String) : Option Int := m key

/-- The method `Store`. -/
def Store (m : GpuPool) (key : String) (value : Int) : GpuPool :=
  fun k => if k = key then some value else m k

/-- The method `Delete`. -/
def Delete (m : GpuPool) (key : String) : GpuPool :=
  fun k => if k = key then none else m k

end GpuPool

/-- The second half of the acquire step of `DeploySpaceTask`: what is stored for
the value that `Load` returned. -/
def acquireStore (pool : GpuPool) (gpuName : String) (loaded : Option Int) : GpuPool :=
  match loaded with
  | some count => pool.Store gpuName (strconv.int64 (count + 1))
  | none => pool.Store gpuName 1

/-- The second half of the release step of `DeploySpaceTask` (the deferred
function): what is stored or deleted for the value that `Load` returned. -/
def releaseStore (pool : GpuPool) (gpuName : String) (loaded : Option Int) : GpuPool :=
  match loaded with
  | some count =>
    if count > 0 then pool.Store gpuName (strconv.int64 (count - 1))
    else pool.Delete gpuName
  | none => pool.Delete gpuName

/-- The acquire step of `DeploySpaceTask`, run without interruption. -/
def gpuAcquire (pool : GpuPool) (gpuName : String) : GpuPool :=
  acquireStore pool gpuName (pool.Load gpuName)

/-- The release step of `DeploySpaceTask`, run without interruption: the body of
the deferred function, with its test `gpuName != ""`. -/
def gpuRelease (pool : GpuPool) (gpuName : String) : GpuPool :=
  if gpuName ≠ "" then releaseStore pool gpuName (pool.Load gpuName) else pool

/-- A step on the pool by one deploy: the acquire or the release for a model. -/
inductive GpuStep where
  | acquire (gpuName : String)
  | release (gpuName : String)
  deriving DecidableEq, Repr

/-- A sequence of acquire and release steps, each run without interruption. -/
def gpuRun (pool : GpuPool) (steps : List GpuStep) : GpuPool :=
  steps.foldl (fun p step =>
    match step with
    | GpuStep.acquire gpuName => gpuAcquire p gpuName
    | GpuStep.release gpuName => gpuRelease p gpuName) pool

/-- A call of the acquire or the release step that has done its `Load` and not
yet its `Store` or `Delete`, with the value it loaded. -/
inductive Pending where
  | acquire (loaded : Option Int)
  | release (loaded : Option Int)
  deriving DecidableEq, Repr

/-- The pool together with the calls that are between their two halves. -/
structure PoolState where
  pool : GpuPool
  pending : List Pending

/-- The moves of concurrent deploys on one model: a call does its `Load`, or the
pending call at some position does its `Store` or `Delete`. -/
inductive PoolMove where
  | loadAcquire
  | loadRelease
  | finish (i : Nat)
  deriving DecidableEq, Repr

/-- One move on the pool for the model `gpuName`. Finishing a position that holds
no pending call changes nothing. -/
def poolStep (gpuName : String) (s : PoolState) : PoolMove → PoolState
  | PoolMove.loadAcquire =>
    { s with pending := s.pending ++ [Pending.acquire (s.pool.Load gpuName)] }
  | PoolMove.loadRelease =>
    { s with pending := s.pending ++ [Pending.release (s.pool.Load gpuName)] }
  | PoolMove.finish i =>
    match s.pending[i]? with
    | none => s
    | some (Pending.acquire loaded) =>
      { pool := acquireStore s.pool gpuName loaded, pending := s.pending.eraseIdx i }
    | some (Pending.release loaded) =>
      { pool := releaseStore s.pool gpuName loaded, pending := s.pending.eraseIdx i }

/-- A sequence of moves from a state. -/
def poolRun (gpuName : String) (s : PoolState) (moves : List PoolMove) : PoolState :=
  moves.foldl (poolStep gpuName) s

/-- What `http.Get` and the decoding of the body give `DeploySpaceTask`: a failed
request, or a response with its status code and, when the body decodes, the
hardware description of the active order. -/
inductive SpaceFetch where
  | failed
  | response (statusCode : Nat) (description : Option String)
  deriving DecidableEq, Repr

/-- The outcome of a call into the build or deploy code: it returns a value,
returns an error, or panics. -/
inductive Outcome (α : Type) where
  | value (a : α)
  | error
  | panics
  deriving DecidableEq, Repr

/-- What one run of `DeploySpaceTask` meets outside the pool: the fetch, the result
of `BuildSpaceTaskImage` (whether the space holds a manifest), and whether the
deployment code that follows (`yamlToK8s`, or `BuildImagesByDockerfile` with
`dockerfileToK8s`) returns or panics. -/
structure DeployRun where
  fetch : SpaceFetch
  build : Outcome Bool
  deploy : Outcome Unit

/-- The steps on the pool that a run issues. -/
inductive PoolEvent where
  | acquired (gpuName : String)
  | released (gpuName : String)
  deriving DecidableEq, Repr

/-- How the body of `DeploySpaceTask` is left: by a `return` with a value or by a
panic. -/
inductive Leave where
  | returned (host : String)
  | panicking
  deriving DecidableEq, Repr

/-- The state when the body of `DeploySpaceTask` is left, before the deferred
functions run. -/
structure Frame where
  leave : Leave
  gpuName : String
  pool : GpuPool
  events : List PoolEvent

/-- The body of `DeploySpaceTask` up to the point where it is left. -/
def deployBody (run : DeployRun) (hostName : String) (pool : GpuPool) : Frame :=
  let gpuName := ""
  match run.fetch with
  | SpaceFetch.failed => ⟨Leave.returned "", gpuName, pool, []⟩
  | SpaceFetch.response statusCode decoded =>
    if statusCode ≠ 200 then ⟨Leave.returned "", gpuName, pool, []⟩
    else
      match decoded with
      | none => ⟨Leave.returned "", gpuName, pool, []⟩
      | some description =>
        if description.length = 0 then ⟨Leave.returned "", gpuName, pool, []⟩
        else
          match getHardwareDetail description with
          | none => ⟨Leave.panicking, gpuName, pool, []⟩
          | some hardwareInfo =>
            let acquired : String × GpuPool × List PoolEvent :=
              if hardwareInfo.Gpu.Unit ≠ "" then
                let gpuName := strings.ReplaceAll hardwareInfo.Gpu.Unit " " "-"
                (gpuName, gpuAcquire pool gpuName, [PoolEvent.acquired gpuName])
              else (gpuName, pool, [])
            let gpuName := acquired.1
            let pool := acquired.2.1
            let events := acquired.2.2
            match run.build with
            | Outcome.panics => ⟨Leave.panicking, gpuName, pool, events⟩
            | Outcome.error => ⟨Leave.returned "", gpuName, pool, events⟩
            | Outcome.value _ =>
              match run.deploy with
              | Outcome.panics => ⟨Leave.panicking, gpuName, pool, events⟩
              | Outcome.error => ⟨Leave.returned hostName, gpuName, pool, events⟩
              | Outcome.value _ => ⟨Leave.returned hostName, gpuName, pool, events⟩

/-- What a run of `DeploySpaceTask` leaves behind. -/
structure Deployed where
  result : String
  pool : GpuPool
  events : List PoolEvent

/-- The function `DeploySpaceTask` of `computing/cp_service.go`: the body, then the
deferred functions in reverse order of their registration: the closing of the
response body (no effect here), the release of the GPU slot, and the `recover`,
after which a panicking run returns the zero value `""`. -/
def DeploySpaceTask (run : DeployRun) (hostName : String) (pool : GpuPool) : Deployed :=
  let frame := deployBody run hostName pool
  let events :=
    if frame.gpuName ≠ "" then frame.events ++ [PoolEvent.released frame.gpuName]
    else frame.events
  let result :=
    match frame.leave with
    | Leave.returned host => host
    | Leave.panicking => ""
  { result := result, pool := gpuRelease frame.pool frame.gpuName, events := events }

end computing

namespace k8s

/-- The errors of an orchestration call as `deleteJob` tells them apart with
`errors.IsNotFound`. -/
inductive APIError where
  | notFound
  | other
  deriving DecidableEq, Repr

/-- The calls `deleteJob` makes on the cluster and on the image store. -/
inductive Call where
  | DeleteIngress (namespace_ ingressName : String)
  | DeleteService (namespace_ serviceName : String)
  | GetDeploymentImages (namespace_ deployName : String)
  | RemoveImage (imageId : String)
  | DeleteDeployment (namespace_ deployName : String)
  | DeleteDeployRs (namespace_ spaceUuid : String)
  | DeletePod (namespace_ spaceUuid : String)
  | GetPods (namespace_ spaceUuid : String)
  deriving DecidableEq, Repr

/-- What the cluster answers during one run of `deleteJob`: the error of each
call (`none` is `nil`), the image ids of the deployment, and the answer to each
query for pods, numbered from 0. The methods `DeleteIngress`, `GetDeploymentImages`,
`DeleteDeployRs`, `DeletePod` and the two-argument `GetPods` are not in the source
files at hand; their results are taken as given here. -/
structure Cluster where
  deleteIngress : Option APIError
  deleteService : Option APIError
  getDeploymentImages : List String × Option APIError
  deleteDeployment : Option APIError
  deleteDeployRs : Option APIError
  deletePod : Option APIError
  getPods : Nat → Bool × Option APIError

end k8s

namespace computing

/-- The three name constants of package `constants` that `deleteJob` uses. -/
structure NameConstants where
  K8S_DEPLOY_NAME_PREFIX : String
  K8S_SERVICE_NAME_PREFIX : String
  K8S_INGRESS_NAME_PREFIX : String

/-- What a run of `deleteJob` leaves behind: the calls it made, oldest first, the
number of `Errorf` log lines, and the number of ticks it waited for. -/
structure Teardown where
  calls : List k8s.Call
  errorsLogged : Nat
  ticks : Nat
  deriving DecidableEq, Repr

/-- The poll loop at the end of `deleteJob`. The first argument bounds the number
of iterations the model runs (`none`: the loop is still running); `count` is the
counter of the source and `asked` the number of queries made so far. -/
def pollLoop (cluster : k8s.Cluster) (namespace_ spaceUuid : String) :
    Nat → Nat → Nat → Teardown → Option Teardown
  | 0, _, _, _ => none
  | fuel + 1, count, asked, t =>
    let t := { t with ticks := t.ticks + 1 }
    let count := count + 1
    if count ≥ 20 then some t
    else
      let got := cluster.getPods asked
      let t := { t with calls := t.calls ++ [k8s.Call.GetPods namespace_ spaceUuid] }
      if got.2 = some k8s.APIError.other then
        pollLoop cluster namespace_ spaceUuid fuel count (asked + 1)
          { t with errorsLogged := t.errorsLogged + 1 }
      else if !got.1 then some t
      else pollLoop cluster namespace_ spaceUuid fuel count (asked + 1) t

/-- The function `deleteJob` of `computing/cp_service.go`. An early `return` ends the
run with the calls made so far; `fuel` bounds the iterations of the poll loop. The
result of `RemoveImage` is not read by the source. -/
def deleteJob (names : NameConstants) (cluster : k8s.Cluster) (namespace_ spaceUuid : String)
    (fuel : Nat) : Option Teardown :=
  let deployName := names.K8S_DEPLOY_NAME_PREFIX ++ spaceUuid
  let serviceName := names.K8S_SERVICE_NAME_PREFIX ++ spaceUuid
  let ingressName := names.K8S_INGRESS_NAME_PREFIX ++ spaceUuid
  let calls := [k8s.Call.DeleteIngress namespace_ ingressName]
  if cluster.deleteIngress = some k8s.APIError.other then some ⟨calls, 1, 0⟩
  else
    let calls := calls ++ [k8s.Call.DeleteService namespace_ serviceName]
    if cluster.deleteService = some k8s.APIError.other then some ⟨calls, 1, 0⟩
    else
      let deployImageIds := cluster.getDeploymentImages.1
      let calls := calls ++ [k8s.Call.GetDeploymentImages namespace_ deployName]
      if cluster.getDeploymentImages.2 = some k8s.APIError.other then some ⟨calls, 1, 0⟩
      else
        let calls := calls ++ deployImageIds.map k8s.Call.RemoveImage
        let calls := calls ++ [k8s.Call.DeleteDeployment namespace_ deployName]
        if cluster.deleteDeployment = some k8s.APIError.other then some ⟨calls, 1, 0⟩
        else
          let calls := calls ++ [k8s.Call.DeleteDeployRs namespace_ spaceUuid]
          if cluster.deleteDeployRs = some k8s.APIError.other then some ⟨calls, 1, 0⟩
          else
            let calls := calls ++ [k8s.Call.DeletePod namespace_ spaceUuid]
            if cluster.deletePod = some k8s.APIError.other then some ⟨calls, 1, 0⟩
            else pollLoop cluster namespace_ spaceUuid fuel 0 0 ⟨calls, 0, 0⟩

/-- An environment variable of a container (`coreV1.EnvVar` of the Kubernetes API,
without `ValueFrom`). -/
structure EnvVar where
  Name : String
  Value : String
  deriving DecidableEq, Repr

/-- Modelled from the spec: the type of a dependency container is declared in
package `yaml`, not in the source files at hand; these are the fields `yamlToK8s`
reads for the name, image and environment of the submitted container (the spec's
ContainerSpec). -/
structure DependContainer where
  Name : String
  ImageName : String
  Env : List EnvVar
  deriving DecidableEq, Repr

/-- Modelled from the spec: the type of the entries `yaml.HandlerYaml` returns is
declared in package `yaml`, not in the source files at hand; these are the fields
`yamlToK8s` reads for the name, image and environment of the submitted containers
(the spec's ContainerSpec). -/
structure ContainerResource where
  Name : String
  ImageName : String
  Env : List EnvVar
  Depends : List DependContainer
  deriving DecidableEq, Repr

/-- A container of the submitted deployment: name, image and environment; the
command, arguments, ports, resources, probe and mounts are copied next to them
and left out here. -/
structure Container where
  Name : String
  Image : String
  Env : List EnvVar
  deriving DecidableEq, Repr

/-- The loop of `yamlToK8s` over `cr.Env`: the first variable whose name contains
`NEXTAUTH_URL` gets the value `"https://" + hostName`, and the loop breaks. -/
def rewriteNextAuth (hostName : String) : List EnvVar → List EnvVar
  | [] => []
  | envVar :: rest =>
    if strings.Contains envVar.Name "NEXTAUTH_URL" then
      { envVar with Value := "https://" ++ hostName } :: rest
    else envVar :: rewriteNextAuth hostName rest

/-- The containers `yamlToK8s` puts in the deployment of one manifest entry: the
dependency containers, then the primary container with its rewritten environment
followed by the four injected variables. -/
def manifestContainers (jobUuid creatorWallet spaceUuid hostName : String)
    (cr : ContainerResource) : List Container :=
  let env := rewriteNextAuth hostName cr.Env
  let containers := cr.Depends.map (fun depend =>
    ({ Name := spaceUuid ++ "-" ++ depend.Name, Image := depend.ImageName,
       Env := depend.Env } : Container))
  let env := env ++
    [⟨"wallet_address", creatorWallet⟩, ⟨"space_uuid", spaceUuid⟩,
     ⟨"result_url", hostName⟩, ⟨"job_uuid", jobUuid⟩]
  containers ++ [{ Name := spaceUuid ++ "-" ++ cr.Name, Image := cr.ImageName, Env := env }]

end computing

namespace k8s

/-- An answer to the query for pods that reports no pods: the flag is false and
the error, if any, is not-found. -/
abbrev reportsNoPods (answer : Bool × Option APIError) : Prop :=
  answer.1 = false ∧ answer.2 ≠ some APIError.other

/-- An error with not-found taken for success. -/
def dropNotFound (e : Option APIError) : Option APIError :=
  if e = some APIError.notFound then none else e

/-- The cluster that answers like `c` but with `nil` wherever `c` answers with a
not-found error. -/
def Cluster.withoutNotFound (c : Cluster) : Cluster :=
  { deleteIngress := dropNotFound c.deleteIngress
    deleteService := dropNotFound c.deleteService
    getDeploymentImages := (c.getDeploymentImages.1, dropNotFound c.getDeploymentImages.2)
    deleteDeployment := dropNotFound c.deleteDeployment
    deleteDeployRs := dropNotFound c.deleteDeployRs
    deletePod := dropNotFound c.deletePod
    getPods := fun i => ((c.getPods i).1, dropNotFound (c.getPods i).2) }

end k8s

namespace computing

/-- A number that fits the type `int64`, so that arithmetic giving it does not
wrap around. -/
abbrev fitsInt64 (x : Int) : Prop := -9223372036854775808 ≤ x ∧ x < 9223372036854775808

end computing

namespace strings

/-- Go `strings.HasPrefix(s, prefix)`. -/
def HasPrefix (s pre : String) : Bool := pre.data.isPrefixOf s.data

/-- Go `strings.Join(elems, sep)`. -/
def Join (elems : List String) (sep : String) : String :=
  match elems with
  | [] => ""
  | first :: rest => rest.foldl (fun joined e => joined ++ sep ++ e) first

end strings

namespace computing

/-- What `http.Get(jobData.JobResultURI)` and the decoding of the body give
`RedeployJob`: a failed request, or a response with its status code and, when the
body decodes, its field `job_result_uri`. -/
inductive ResultFetch where
  | failed
  | response (statusCode : Nat) (jobResultUri : Option String)
  deriving DecidableEq, Repr

/-- The host name `ReceiveJob` of `computing/cp_service.go` resolves. `Domain` is
`conf.GetConfig().API.Domain` and `prefixStr` the value of `generateString(10)`, a
random string of 10 characters from `a` to `z` and `0` to `9`. -/
def ReceiveJob.hostName (Domain prefixStr : String) : String :=
  if strings.HasPrefix Domain "." then prefixStr ++ Domain
  else strings.Join [prefixStr, Domain] "."

/-- The host name `RedeployJob` of `computing/cp_service.go` resolves, `none` when
it resolves none. `generated` is the value of `generateString(10)`. With a result URI
the handler has no host name when the request fails (`resp` is nil and `resp.Body`
faults), when the status is not 200 (`err` is nil and `err.Error()` faults) and when
the body does not decode (it returns). -/
def RedeployJob.hostName (Domain JobResultURI : String) (fetch : ResultFetch)
    (generated : String) : Option String :=
  if JobResultURI ≠ "" then
    match fetch with
    | ResultFetch.failed => none
    | ResultFetch.response statusCode decoded =>
      if statusCode ≠ 200 then none
      else
        match decoded with
        | none => none
        | some jobResultUri => some (strings.ReplaceAll jobResultUri "https://" "")
  else some (generated ++ Domain)

end computing

/-! ## Vocabulary of the statements -/

namespace computing

/-- The `i`-th part of a description cut at `"·"`, when there is one. -/
def confField (description : String) (i : Nat) : Option String :=
  (strings.Split description "·")[i]?

/-- The `j`-th token, cut at spaces, of the `i`-th part of a description. -/
def fieldToken (description : String) (i j : Nat) : Option String :=
  (confField description i).bind (fun f => (strings.Split f " ")[j]?)

/-- A decimal digit `'0'` to `'9'`. -/
def isDecimalDigit (c : Char) : Bool := 48 ≤ c.toNat && c.toNat ≤ 57

/-- The number a string of decimal digits denotes, read onto a value `n`. -/
def decimalFold (n : Nat) (ds : List Char) : Nat :=
  ds.foldl (fun a c => 10 * a + (c.toNat - 48)) n

/-- The number a string of decimal digits denotes. -/
def decimalValue (ds : String) : Nat := decimalFold 0 ds.data

/-- A string with every `'B'` taken out. -/
def withoutB (s : String) : String := String.mk (s.data.filter (fun c => c != 'B'))

end computing

/-! ## Facts about the library functions -/

namespace strings

theorem splitGo_ne_nil (sep s : List Char) (k : Nat) : splitGo sep s k ≠ [] := by
  induction s generalizing k with
  | nil => simp [splitGo]
  | cons c cs ih =>
    cases k with
    | zero =>
      simp only [splitGo]
      split
      · simp
      · cases h : splitGo sep cs 0 with
        | nil => exact absurd h (ih 0)
        | cons p ps => simp [consHead]
    | succ k => simpa [splitGo] using ih k

theorem splitGo_char_cut (d : Char) (a b : List Char) (ha : d ∉ a) :
    splitGo [d] (a ++ d :: b) 0 = a :: splitGo [d] b 0 := by
  induction a with
  | nil => simp [splitGo]
  | cons c cs ih =>
    have hc : d ≠ c := fun h => ha (by simp [h])
    have hcs : d ∉ cs := fun h => ha (by simp [h])
    simp [splitGo, hc, ih hcs, consHead]

theorem splitGo_char_last (d : Char) (a : List Char) (ha : d ∉ a) :
    splitGo [d] a 0 = [a] := by
  induction a with
  | nil => simp [splitGo]
  | cons c cs ih =>
    have hc : d ≠ c := fun h => ha (by simp [h])
    have hcs : d ∉ cs := fun h => ha (by simp [h])
    simp [splitGo, hc, ih hcs, consHead]

theorem Split_ne_nil (s : String) (d : Char) : Split s (String.mk [d]) ≠ [] := by
  simp [Split, splitGo_ne_nil]

end strings

namespace computing

open models

theorem confField_zero (description : String) : ∃ f0, confField description 0 = some f0 := by
  unfold confField
  have h : strings.Split description "·" ≠ [] := strings.Split_ne_nil description '·'
  cases hs : strings.Split description "·" with
  | nil => exact absurd hs h
  | cons p ps => exact ⟨p, by simp⟩

/-- The result of `getHardwareDetail` when every slice index it reads exists. -/
theorem getHardwareDetail_of_tokens (description f0 c1 c2 m1 m2 : String)
    (h0 : confField description 0 = some f0)
    (hc1 : fieldToken description 1 1 = some c1)
    (hc2 : fieldToken description 1 2 = some c2)
    (hm1 : fieldToken description 2 1 = some m1)
    (hm2 : fieldToken description 2 2 = some m2) :
    getHardwareDetail description = some
      { Cpu := ⟨(strconv.ParseInt c1).1, c2⟩,
        Memory := ⟨(strconv.ParseInt m1).1, strings.ReplaceAll m2 "B" ""⟩,
        Gpu := if strings.Contains f0 "CPU" then ⟨0, ""⟩
          else ⟨1, strings.ReplaceAll (strings.TrimSpace f0) "Nvidia" "NVIDIA"⟩,
        Storage := ⟨30, "Gi"⟩ } := by
  unfold fieldToken confField at *
  unfold getHardwareDetail
  cases h1 : (strings.Split description "·")[1]? with
  | none => simp [h1] at hc1
  | some f1 =>
    cases h2 : (strings.Split description "·")[2]? with
    | none => simp [h2] at hm1
    | some f2 =>
      simp only [h1, h2, Option.bind_some, Option.some_bind] at hc1 hc2 hm1 hm2
      simp only [h0, h1, h2, hc1, hc2, hm1, hm2, Option.bind_eq_bind, Option.some_bind,
        Option.bind_some, Resource.zero, Option.pure_def]
      split <;> rfl

/-- The function faults exactly when one of the indexed tokens is missing. -/
theorem getHardwareDetail_eq_none_iff (description : String) :
    getHardwareDetail description = none ↔
      fieldToken description 1 1 = none ∨ fieldToken description 1 2 = none ∨
      fieldToken description 2 1 = none ∨ fieldToken description 2 2 = none := by
  obtain ⟨f0, h0⟩ := confField_zero description
  constructor
  · intro h
    by_contra hne
    simp only [not_or] at hne
    obtain ⟨a1, a2, a3, a4⟩ := hne
    obtain ⟨c1, hc1⟩ := Option.ne_none_iff_exists'.mp a1
    obtain ⟨c2, hc2⟩ := Option.ne_none_iff_exists'.mp a2
    obtain ⟨m1, hm1⟩ := Option.ne_none_iff_exists'.mp a3
    obtain ⟨m2, hm2⟩ := Option.ne_none_iff_exists'.mp a4
    rw [getHardwareDetail_of_tokens description f0 c1 c2 m1 m2 h0 hc1 hc2 hm1 hm2] at h
    exact Option.some_ne_none _ h
  · intro h
    unfold fieldToken confField at *
    unfold getHardwareDetail
    simp only [h0, Option.bind_eq_bind, Option.some_bind]
    cases h1 : (strings.Split description "·")[1]? with
    | none => simp
    | some f1 =>
      simp only [h1, Option.some_bind] at h ⊢
      cases hc1 : (strings.Split f1 " ")[1]? with
      | none => simp
      | some c1 =>
        cases hc2 : (strings.Split f1 " ")[2]? with
        | none => simp
        | some c2 =>
          cases h2 : (strings.Split description "·")[2]? with
          | none => simp
          | some f2 =>
            simp only [h2, hc1, hc2, Option.some_bind] at h ⊢
            cases hm1 : (strings.Split f2 " ")[1]? with
            | none => simp
            | some m1 =>
              cases hm2 : (strings.Split f2 " ")[2]? with
              | none => simp
              | some m2 => simp [hm1, hm2] at h

end computing

namespace strconv

open computing

theorem digitVal_of_digit (c : Char) (h : isDecimalDigit c = true) :
    digitVal c = some (c.toNat - 48) := by
  simp only [isDecimalDigit, Bool.and_eq_true, decide_eq_true_eq] at h
  have h1 : ¬ 0x80 ≤ c.toNat := by omega
  simp [digitVal, h1, h.1, h.2]

theorem decimalFold_cons (n : Nat) (c : Char) (cs : List Char) :
    decimalFold n (c :: cs) = decimalFold (10 * n + (c.toNat - 48)) cs := rfl

theorem le_decimalFold (ds : List Char) (n : Nat) : n ≤ decimalFold n ds := by
  induction ds generalizing n with
  | nil => simp [decimalFold]
  | cons c cs ih =>
    rw [decimalFold_cons]
    exact le_trans (by omega) (ih _)

/-- On a string of decimal digits the loop of `ParseUint` computes the number
the digits denote, or reports a range error when that number exceeds 64 bits. -/
theorem parseUintLoop_digits (ds : List Char) (n : Nat)
    (hd : ∀ c ∈ ds, isDecimalDigit c = true) (hn : n < 2 ^ 64) :
    parseUintLoop ds n =
      if decimalFold n ds < 2 ^ 64 then (decimalFold n ds, none)
      else (maxUint64, some NumError.ErrRange) := by
  induction ds generalizing n with
  | nil =>
    have hn2 : n < 18446744073709551616 := by simpa using hn
    simp [parseUintLoop, decimalFold, hn2]
  | cons c cs ih =>
    have hc : isDecimalDigit c = true := hd c (by simp)
    have hcs : ∀ x ∈ cs, isDecimalDigit x = true := fun x hx => hd x (by simp [hx])
    have hlt : c.toNat - 48 < 10 := by
      simp only [isDecimalDigit, Bool.and_eq_true, decide_eq_true_eq] at hc
      omega
    have hge := le_decimalFold cs (10 * n + (c.toNat - 48))
    rw [decimalFold_cons]
    simp only [parseUintLoop, digitVal_of_digit c hc, maxUint64]
    norm_num only at hn hge ⊢
    by_cases hcut : 1844674407370955162 ≤ n
    · have : ¬ decimalFold (10 * n + (c.toNat - 48)) cs < 18446744073709551616 := by omega
      simp [hlt, hcut, this]
    · by_cases hov : 10 * n + (c.toNat - 48) < 18446744073709551616
      · have e10 : n * 10 % 18446744073709551616 = n * 10 := Nat.mod_eq_of_lt (by omega)
        have e1 : (n * 10 + (c.toNat - 48)) % 18446744073709551616 =
            10 * n + (c.toNat - 48) := by
          rw [Nat.mod_eq_of_lt (by omega)]; omega
        have hih := ih (10 * n + (c.toNat - 48)) hcs (by norm_num only; exact hov)
        norm_num only [maxUint64] at hih
        have hnot : ¬ (10 * n + (c.toNat - 48) < n * 10 ∨
            18446744073709551615 < 10 * n + (c.toNat - 48)) := by omega
        simp only [ge_iff_le, gt_iff_lt, e10, e1, hcut, hnot, if_false, hih]
        have : ¬ 10 ≤ c.toNat - 48 := by omega
        simp [this]
      · have e10 : n * 10 % 18446744073709551616 = n * 10 := Nat.mod_eq_of_lt (by omega)
        have hwrap : (n * 10 + (c.toNat - 48)) % 18446744073709551616 < n * 10 := by omega
        have : ¬ decimalFold (10 * n + (c.toNat - 48)) cs < 18446744073709551616 := by omega
        have h10 : ¬ 10 ≤ c.toNat - 48 := by omega
        simp [e10, hwrap, hcut, this, h10]

end strconv

namespace strconv

open computing

theorem int64_of_small (v : Int) (h0 : -(2 : Int) ^ 63 ≤ v) (h1 : v < 2 ^ 63) : int64 v = v := by
  unfold int64
  norm_num only at h0 h1 ⊢
  omega

theorem digit_ne_sign (c : Char) (h : isDecimalDigit c = true) : c ≠ '+' ∧ c ≠ '-' := by
  simp only [isDecimalDigit, Bool.and_eq_true, decide_eq_true_eq] at h
  constructor <;> rintro rfl <;> simp at h

theorem ParseUint_digits (ds : List Char) (hne : ds ≠ [])
    (hd : ∀ c ∈ ds, isDecimalDigit c = true) :
    ParseUint ds =
      if decimalFold 0 ds < 2 ^ 64 then (decimalFold 0 ds, none)
      else (maxUint64, some NumError.ErrRange) := by
  simp only [ParseUint, hne, if_false]
  exact parseUintLoop_digits ds 0 hd (by norm_num)

/-- What `ParseInt` makes of an unsigned value that fits 64 bits. -/
theorem parseIntSigned_of_value (neg : Bool) (s : List Char) (v : Nat) (hv : v < 2 ^ 64)
    (h : ParseUint s = (v, none)) :
    parseIntSigned neg s =
      if neg then
        (if v ≤ 2 ^ 63 then (-(v : Int), none) else (-2 ^ 63, some NumError.ErrRange))
      else
        (if v < 2 ^ 63 then ((v : Int), none) else (2 ^ 63 - 1, some NumError.ErrRange)) := by
  unfold parseIntSigned
  rw [h]
  simp only [int64]
  norm_num only at hv ⊢
  cases neg
  · by_cases h63 : v < 9223372036854775808
    · have h2 : ¬ (9223372036854775808 ≤ v) := by omega
      simp [h63, h2]
      omega
    · have h2 : (9223372036854775808 ≤ v) := by omega
      simp [h63, h2]
  · by_cases h63 : v ≤ 9223372036854775808
    · have h2 : ¬ (9223372036854775808 < v) := by omega
      simp [h63, h2]
      omega
    · have h2 : (9223372036854775808 < v) := by omega
      simp [h63, h2]

/-- What `ParseInt` makes of a range error of `ParseUint`. -/
theorem parseIntSigned_of_range (neg : Bool) (s : List Char)
    (h : ParseUint s = (maxUint64, some NumError.ErrRange)) :
    parseIntSigned neg s =
      if neg then (-2 ^ 63, some NumError.ErrRange) else (2 ^ 63 - 1, some NumError.ErrRange) := by
  unfold parseIntSigned
  rw [h]
  simp only [int64, maxUint64]
  cases neg <;> norm_num

theorem parseIntSigned_digits (neg : Bool) (ds : List Char) (hne : ds ≠ [])
    (hd : ∀ c ∈ ds, isDecimalDigit c = true) :
    parseIntSigned neg ds =
      if neg then
        (if decimalFold 0 ds ≤ 2 ^ 63 then (-(decimalFold 0 ds : Int), none)
          else (-2 ^ 63, some NumError.ErrRange))
      else
        (if decimalFold 0 ds < 2 ^ 63 then ((decimalFold 0 ds : Int), none)
          else (2 ^ 63 - 1, some NumError.ErrRange)) := by
  have hu := ParseUint_digits ds hne hd
  by_cases h64 : decimalFold 0 ds < 2 ^ 64
  · rw [if_pos h64] at hu
    exact parseIntSigned_of_value neg ds _ h64 hu
  · rw [if_neg h64] at hu
    rw [parseIntSigned_of_range neg ds hu]
    have h1 : ¬ decimalFold 0 ds ≤ 2 ^ 63 := fun h => h64 (lt_of_le_of_lt h (by norm_num))
    have h2 : ¬ decimalFold 0 ds < 2 ^ 63 := fun h => h64 (lt_trans h (by norm_num))
    rw [if_neg h1, if_neg h2]

/-- An unsigned digit string parses to its value below `2^63` and to the largest
`int64` from there on. -/
theorem parseIntChars_digits (ds : List Char) (hne : ds ≠ [])
    (hd : ∀ c ∈ ds, isDecimalDigit c = true) :
    parseIntChars ds =
      if decimalFold 0 ds < 2 ^ 63 then ((decimalFold 0 ds : Int), none)
      else (2 ^ 63 - 1, some NumError.ErrRange) := by
  cases ds with
  | nil => exact absurd rfl hne
  | cons c cs =>
    have hs := digit_ne_sign c (hd c (by simp))
    simp only [parseIntChars]
    rw [if_neg hs.1, if_neg hs.2, parseIntSigned_digits false (c :: cs) hne hd]
    rfl

/-- A digit string with a minus sign parses to the negated value down to `-2^63`
and to the smallest `int64` below that. -/
theorem parseIntChars_neg_digits (ds : List Char) (hne : ds ≠ [])
    (hd : ∀ c ∈ ds, isDecimalDigit c = true) :
    parseIntChars ('-' :: ds) =
      if decimalFold 0 ds ≤ 2 ^ 63 then (-(decimalFold 0 ds : Int), none)
      else (-2 ^ 63, some NumError.ErrRange) := by
  simp only [parseIntChars]
  rw [if_pos True.intro, parseIntSigned_digits true ds hne hd]
  rfl

/-- A syntax error always comes with the value 0. -/
theorem parseIntChars_syntax (s : List Char)
    (h : (parseIntChars s).2 = some NumError.ErrSyntax) : (parseIntChars s).1 = 0 := by
  have key : ∀ neg t, (parseIntSigned neg t).2 = some NumError.ErrSyntax →
      (parseIntSigned neg t).1 = 0 := by
    intro neg t ht
    unfold parseIntSigned at ht ⊢
    split
    · rfl
    · rename_i un e hne heq
      rw [heq] at ht
      simp only at ht
      split at ht
      · simp at ht
      · split at ht <;> simp at ht
  cases s with
  | nil => rfl
  | cons c cs =>
    simp only [parseIntChars] at h ⊢
    by_cases hc : c = '+'
    · rw [if_pos hc] at h ⊢; exact key _ _ h
    · rw [if_neg hc] at h ⊢
      by_cases hc2 : c = '-'
      · rw [if_pos hc2] at h ⊢; exact key _ _ h
      · rw [if_neg hc2] at h ⊢; exact key _ _ h

end strconv

namespace strings

/-- Replacing a single character by nothing filters it out. -/
theorem replaceGo_char_empty (d : Char) (s : List Char) :
    replaceGo [d] [] s 0 = s.filter (fun c => c != d) := by
  induction s with
  | nil => simp [replaceGo]
  | cons c cs ih =>
    by_cases h : d = c
    · subst h
      simp [replaceGo, ih]
    · have h2 : c ≠ d := fun e => h e.symm
      simp [replaceGo, ih, h, h2]

/-- A replacement by a non-empty string is empty only on the empty string. -/
theorem replaceGo_eq_nil (old new s : List Char) (hnew : new ≠ [])
    (h : replaceGo old new s 0 = []) : s = [] := by
  cases s with
  | nil => rfl
  | cons c cs =>
    simp only [replaceGo] at h
    split at h
    · simp [hnew] at h
    · simp at h

/-- After `"Nvidia"` is replaced by `"NVIDIA"` no `"Nvidia"` is left, and a
string without `'N'` that begins the output begins the remaining input. -/
theorem replaceGo_nvidia (s : List Char) (k : Nat) :
    containsChars (replaceGo ['N', 'v', 'i', 'd', 'i', 'a'] ['N', 'V', 'I', 'D', 'I', 'A'] s k)
        ['N', 'v', 'i', 'd', 'i', 'a'] = false ∧
    ∀ p : List Char, 'N' ∉ p →
      p.isPrefixOf
        (replaceGo ['N', 'v', 'i', 'd', 'i', 'a'] ['N', 'V', 'I', 'D', 'I', 'A'] s k) = true →
      p.isPrefixOf (s.drop k) = true := by
  induction s generalizing k with
  | nil =>
    refine ⟨by simp [replaceGo, containsChars], ?_⟩
    intro p _ hp
    simpa [replaceGo] using hp
  | cons c cs ih =>
    cases k with
    | succ k => simpa [replaceGo] using ih k
    | zero =>
      by_cases hm : ['N', 'v', 'i', 'd', 'i', 'a'].isPrefixOf (c :: cs) = true
      · have h5 := (ih 5).1
        have e : replaceGo ['N', 'v', 'i', 'd', 'i', 'a'] ['N', 'V', 'I', 'D', 'I', 'A']
            (c :: cs) 0 = 'N' :: 'V' :: 'I' :: 'D' :: 'I' :: 'A' ::
              replaceGo ['N', 'v', 'i', 'd', 'i', 'a'] ['N', 'V', 'I', 'D', 'I', 'A'] cs 5 := by
          simp only [replaceGo, hm, if_true]; rfl
        rw [e]
        constructor
        · simp only [containsChars, h5, Bool.or_false]
          simp [List.isPrefixOf]
        · intro p hN hp
          cases p with
          | nil => simp
          | cons x xs =>
            simp only [List.isPrefixOf, Bool.and_eq_true, beq_iff_eq] at hp
            exact absurd (by simp [hp.1]) hN
      · have e : replaceGo ['N', 'v', 'i', 'd', 'i', 'a'] ['N', 'V', 'I', 'D', 'I', 'A']
            (c :: cs) 0 =
            c :: replaceGo ['N', 'v', 'i', 'd', 'i', 'a'] ['N', 'V', 'I', 'D', 'I', 'A'] cs 0 := by
          simp only [replaceGo, hm]; rfl
        rw [e]
        obtain ⟨ih1, ih2⟩ := ih 0
        have step : ∀ p : List Char, 'N' ∉ p →
            p.isPrefixOf (c :: replaceGo ['N', 'v', 'i', 'd', 'i', 'a']
              ['N', 'V', 'I', 'D', 'I', 'A'] cs 0) = true →
            p.isPrefixOf (c :: cs) = true := by
          intro p hN hp
          cases p with
          | nil => simp
          | cons x xs =>
            simp only [List.isPrefixOf, Bool.and_eq_true, beq_iff_eq] at hp ⊢
            have hxs : 'N' ∉ xs := fun hx => hN (by simp [hx])
            exact ⟨hp.1, by simpa using ih2 xs hxs hp.2⟩
        refine ⟨?_, by simpa using step⟩
        simp only [containsChars, ih1, Bool.or_false]
        by_contra hcon
        simp only [Bool.not_eq_false] at hcon
        apply hm
        rw [List.isPrefixOf, Bool.and_eq_true, beq_iff_eq] at hcon ⊢
        refine ⟨hcon.1, ?_⟩
        have := ih2 ['v', 'i', 'd', 'i', 'a'] (by decide) hcon.2
        simpa using this

/-- Trimming leaves nothing exactly when every character is white space. -/
theorem trim_eq_nil_iff (l : List Char) :
    (l.dropWhile unicode.IsSpace).rdropWhile unicode.IsSpace = [] ↔
      ∀ c ∈ l, unicode.IsSpace c = true := by
  rw [List.rdropWhile_eq_nil_iff]
  constructor
  · intro h
    by_contra hne
    have hnil : l.dropWhile unicode.IsSpace ≠ [] := by
      intro e; exact hne (List.dropWhile_eq_nil_iff.mp e)
    have hhead := List.head_dropWhile_not unicode.IsSpace l hnil
    have := h _ (List.head_mem hnil)
    simp [this] at hhead
  · intro h
    rw [List.dropWhile_eq_nil_iff.mpr h]
    simp

end strings

namespace strings

theorem Split_dot (s : String) :
    Split s "·" = (splitGo ['·'] s.data 0).map String.mk := rfl

theorem Split_space (s : String) :
    Split s " " = (splitGo [' '] s.data 0).map String.mk := rfl

theorem splitGo_char_head (d : Char) (b : List Char) :
    splitGo [d] (d :: b) 0 = [] :: splitGo [d] b 0 := by
  simpa using splitGo_char_cut d [] b (by simp)

/-- Three parts without the separator are what `Split` gives back. -/
theorem Split_dot_three (f0 f1 f2 : List Char)
    (h0 : '·' ∉ f0) (h1 : '·' ∉ f1) (h2 : '·' ∉ f2) :
    Split (String.mk (f0 ++ '·' :: (f1 ++ '·' :: f2))) "·" =
      [String.mk f0, String.mk f1, String.mk f2] := by
  rw [Split_dot]
  simp only [splitGo_char_cut _ _ _ h0, splitGo_char_cut _ _ _ h1, splitGo_char_last _ _ h2,
    List.map]

theorem ReplaceAll_B (s : String) : ReplaceAll s "B" "" = computing.withoutB s := by
  show String.mk (replaceGo ['B'] [] s.data 0) = _
  rw [replaceGo_char_empty]
  rfl

end strings

namespace computing

open models

theorem digits_no_char (ds : List Char) (hd : ∀ c ∈ ds, isDecimalDigit c = true)
    (x : Char) (hx : isDecimalDigit x = false) : x ∉ ds := by
  intro h
  rw [hd x h] at hx
  exact Bool.noConfusion hx

theorem withoutB_digits (s : String) (hd : ∀ c ∈ s.data, isDecimalDigit c = true) :
    withoutB s = s := by
  unfold withoutB
  have : s.data.filter (fun c => c != 'B') = s.data := by
    rw [List.filter_eq_self]
    intro c hc
    have := digits_no_char s.data hd 'B' (by decide)
    simp only [bne_iff_ne, ne_eq]
    rintro rfl
    exact this hc
  rw [this]

/-- The tokens of a description made of a first part and two further parts
that each begin with a blank followed by blank-separated words. -/
theorem tokens_of_parts (first : List Char) (w1 w2 rest1 v1 v2 rest2 : List Char)
    (hfirst : '·' ∉ first)
    (hw1 : ' ' ∉ w1 ∧ '·' ∉ w1) (hw2 : ' ' ∉ w2 ∧ '·' ∉ w2) (hr1 : '·' ∉ rest1)
    (hv1 : ' ' ∉ v1 ∧ '·' ∉ v1) (hv2 : ' ' ∉ v2 ∧ '·' ∉ v2) (hr2 : '·' ∉ rest2)
    (hr1s : rest1 = [] ∨ ∃ t, rest1 = ' ' :: t) (hr2s : rest2 = [] ∨ ∃ t, rest2 = ' ' :: t) :
    let d := String.mk (first ++ '·' :: ((' ' :: (w1 ++ ' ' :: (w2 ++ rest1))) ++
      '·' :: (' ' :: (v1 ++ ' ' :: (v2 ++ rest2)))))
    confField d 0 = some (String.mk first) ∧
    fieldToken d 1 1 = some (String.mk w1) ∧ fieldToken d 1 2 = some (String.mk w2) ∧
    fieldToken d 2 1 = some (String.mk v1) ∧ fieldToken d 2 2 = some (String.mk v2) := by
  intro d
  have hsp : ('·' : Char) ≠ ' ' := by decide
  have hf1 : '·' ∉ ' ' :: (w1 ++ ' ' :: (w2 ++ rest1)) := by
    simp [hw1.2, hw2.2, hr1]
  have hf2 : '·' ∉ ' ' :: (v1 ++ ' ' :: (v2 ++ rest2)) := by
    simp [hv1.2, hv2.2, hr2]
  have hs := strings.Split_dot_three first _ _ hfirst hf1 hf2
  have tok : ∀ a b r : List Char, ' ' ∉ a → ' ' ∉ b → (r = [] ∨ ∃ t, r = ' ' :: t) →
      ∃ more, strings.splitGo [' '] (' ' :: (a ++ ' ' :: (b ++ r))) 0 = [] :: a :: b :: more := by
    intro a b r ha hb hr
    rw [strings.splitGo_char_head, strings.splitGo_char_cut _ _ _ ha]
    rcases hr with rfl | ⟨t, rfl⟩
    · exact ⟨[], by simp [strings.splitGo_char_last _ _ hb]⟩
    · exact ⟨_, by rw [strings.splitGo_char_cut _ _ _ hb]⟩
  obtain ⟨m1, e1⟩ := tok w1 w2 rest1 hw1.1 hw2.1 hr1s
  obtain ⟨m2, e2⟩ := tok v1 v2 rest2 hv1.1 hv2.1 hr2s
  simp only [confField, fieldToken, d]
  rw [hs]
  simp [strings.Split_space, e1, e2]

end computing

/-! ## The hardware description parser -/

namespace computing

open models

theorem ParseInt_digits (n : String) (hne : n.data ≠ [])
    (hd : ∀ c ∈ n.data, isDecimalDigit c = true) (hv : decimalValue n < 2 ^ 63) :
    (strconv.ParseInt n).1 = decimalValue n := by
  unfold strconv.ParseInt
  rw [strconv.parseIntChars_digits n.data hne hd]
  unfold decimalValue at hv ⊢
  rw [if_pos hv]

/-- C1, refuted as stated: in the two scenarios of the specification the token at
index 1 of the second and third parts is the word `CPU` or `Memory`, not the number,
so the quantities are 0 and the units are the numbers. -/
theorem scenarios_as_written :
    getHardwareDetail "Nvidia RTX 3090 · CPU 8 vCPU · Memory 32 GB" =
      some { Cpu := ⟨0, "8"⟩, Memory := ⟨0, "32"⟩, Gpu := ⟨1, "NVIDIA RTX 3090"⟩,
             Storage := ⟨30, "Gi"⟩ } ∧
    getHardwareDetail "Nvidia RTX 3090 · CPU 8 vCPU · Memory 32 GB" ≠
      some { Cpu := ⟨8, "vCPU"⟩, Memory := ⟨32, "G"⟩, Gpu := ⟨1, "NVIDIA RTX 3090"⟩,
             Storage := ⟨30, "Gi"⟩ } ∧
    getHardwareDetail "CPU Only · CPU 4 Core · Memory 8 GB" =
      some { Cpu := ⟨0, "4"⟩, Memory := ⟨0, "8"⟩, Gpu := ⟨0, ""⟩, Storage := ⟨30, "Gi"⟩ } ∧
    getHardwareDetail "CPU Only · CPU 4 Core · Memory 8 GB" ≠
      some { Cpu := ⟨4, "Core"⟩, Memory := ⟨8, "G"⟩, Gpu := ⟨0, ""⟩, Storage := ⟨30, "Gi"⟩ } := by
  decide

/-- C1, amended: for a description `<first> · <n> <unit> · <m> <munit>`, where `n` and
`m` are strings of decimal digits denoting numbers below `2^63` and no token holds a
blank or the separator, the parser returns cpu = n × unit, memory = m × (munit with
every `B` removed) and storage = 30 × `Gi`; with the words `CPU` and `Memory` in front
of the numbers it returns the quantities 0 and the numbers as units. The two
scenarios hold once the words `CPU` and `Memory` are left out. -/
theorem getHardwareDetail_conventional (first n unit m munit : String)
    (hfirst : '·' ∉ first.data)
    (hn : n.data ≠ [] ∧ ∀ c ∈ n.data, isDecimalDigit c = true) (hnv : decimalValue n < 2 ^ 63)
    (hunit : ' ' ∉ unit.data ∧ '·' ∉ unit.data)
    (hm : m.data ≠ [] ∧ ∀ c ∈ m.data, isDecimalDigit c = true) (hmv : decimalValue m < 2 ^ 63)
    (hmunit : ' ' ∉ munit.data ∧ '·' ∉ munit.data) :
    (∃ r, getHardwareDetail
        (first ++ " · " ++ n ++ " " ++ unit ++ " · " ++ m ++ " " ++ munit) = some r ∧
      r.Cpu = ⟨decimalValue n, unit⟩ ∧ r.Memory = ⟨decimalValue m, withoutB munit⟩ ∧
      r.Storage = ⟨30, "Gi"⟩) ∧
    (∃ r, getHardwareDetail
        (first ++ " · CPU " ++ n ++ " " ++ unit ++ " · Memory " ++ m ++ " " ++ munit) = some r ∧
      r.Cpu = ⟨0, n⟩ ∧ r.Memory = ⟨0, m⟩ ∧ r.Storage = ⟨30, "Gi"⟩) ∧
    getHardwareDetail "Nvidia RTX 3090 · 8 vCPU · 32 GB" =
      some { Cpu := ⟨8, "vCPU"⟩, Memory := ⟨32, "G"⟩, Gpu := ⟨1, "NVIDIA RTX 3090"⟩,
             Storage := ⟨30, "Gi"⟩ } ∧
    getHardwareDetail "CPU Only · 4 Core · 8 GB" =
      some { Cpu := ⟨4, "Core"⟩, Memory := ⟨8, "G"⟩, Gpu := ⟨0, ""⟩, Storage := ⟨30, "Gi"⟩ } := by
  have hnb : ' ' ∉ n.data ∧ '·' ∉ n.data :=
    ⟨digits_no_char _ hn.2 _ (by decide), digits_no_char _ hn.2 _ (by decide)⟩
  have hmb : ' ' ∉ m.data ∧ '·' ∉ m.data :=
    ⟨digits_no_char _ hm.2 _ (by decide), digits_no_char _ hm.2 _ (by decide)⟩
  have hf0 : '·' ∉ first.data ++ [' '] := by simp [hfirst]
  refine ⟨?_, ?_, by decide, by decide⟩
  · have hd : first ++ " · " ++ n ++ " " ++ unit ++ " · " ++ m ++ " " ++ munit =
        String.mk ((first.data ++ [' ']) ++ '·' :: ((' ' :: (n.data ++ ' ' :: (unit.data ++ [' ']))) ++
          '·' :: (' ' :: (m.data ++ ' ' :: (munit.data ++ []))))) := by
      apply String.ext
      simp [String.data_append]
    obtain ⟨t0, t1, t2, t3, t4⟩ := tokens_of_parts (first.data ++ [' ']) n.data unit.data [' ']
      m.data munit.data [] hf0 hnb hunit (by decide) hmb hmunit (by simp)
      (Or.inr ⟨[], rfl⟩) (Or.inl rfl)
    rw [← hd] at t0 t1 t2 t3 t4
    refine ⟨_, getHardwareDetail_of_tokens _ _ _ _ _ _ t0 t1 t2 t3 t4, ?_, ?_, rfl⟩
    · show Specification.mk (strconv.ParseInt n).1 unit = _
      rw [ParseInt_digits n hn.1 hn.2 hnv]
    · show Specification.mk (strconv.ParseInt m).1 (strings.ReplaceAll munit "B" "") = _
      rw [ParseInt_digits m hm.1 hm.2 hmv, strings.ReplaceAll_B]
  · have hd : first ++ " · CPU " ++ n ++ " " ++ unit ++ " · Memory " ++ m ++ " " ++ munit =
        String.mk ((first.data ++ [' ']) ++
          '·' :: ((' ' :: ("CPU".data ++ ' ' :: (n.data ++ (' ' :: (unit.data ++ [' ']))))) ++
          '·' :: (' ' :: ("Memory".data ++ ' ' :: (m.data ++ (' ' :: munit.data)))))) := by
      apply String.ext
      simp [String.data_append]
    have hu : '·' ∉ ' ' :: (unit.data ++ [' ']) := by simp [hunit.2]
    have hmu : '·' ∉ ' ' :: munit.data := by simp [hmunit.2]
    obtain ⟨t0, t1, t2, t3, t4⟩ := tokens_of_parts (first.data ++ [' ']) "CPU".data n.data
      (' ' :: (unit.data ++ [' '])) "Memory".data m.data (' ' :: munit.data) hf0
      (by decide) hnb hu (by decide) hmb hmu (Or.inr ⟨_, rfl⟩) (Or.inr ⟨_, rfl⟩)
    rw [← hd] at t0 t1 t2 t3 t4
    refine ⟨_, getHardwareDetail_of_tokens _ _ _ _ _ _ t0 t1 t2 t3 t4, ?_, ?_, rfl⟩
    · show Specification.mk (strconv.ParseInt "CPU").1 n = _
      rfl
    · show Specification.mk (strconv.ParseInt "Memory").1 (strings.ReplaceAll m "B" "") = _
      rw [strings.ReplaceAll_B, withoutB_digits m hm.2]
      rfl

/-- C1, amended, at the description `Nvidia 3080 · 8 vCPU · 28 GiB`. -/
theorem getHardwareDetail_conventional_witness :
    ∃ r, getHardwareDetail
        ("Nvidia 3080" ++ " · " ++ "8" ++ " " ++ "vCPU" ++ " · " ++ "28" ++ " " ++ "GiB") = some r ∧
      r.Cpu = ⟨decimalValue "8", "vCPU"⟩ ∧ r.Memory = ⟨decimalValue "28", withoutB "GiB"⟩ ∧
      r.Storage = ⟨30, "Gi"⟩ :=
  (getHardwareDetail_conventional "Nvidia 3080" "8" "vCPU" "28" "GiB" (by decide)
    (by decide) (by decide) (by decide) (by decide) (by decide) (by decide)).1

end computing

namespace computing

open models

theorem confField_none_of_short (d : String) (h : (strings.Split d "·").length < 3) :
    confField d 2 = none := by
  unfold confField
  exact List.getElem?_eq_none (by omega)

/-- The description of a returned result: all four tokens exist. -/
theorem tokens_of_some (d : String) (r : Resource) (h : getHardwareDetail d = some r) :
    ∃ f0 c1 c2 m1 m2, confField d 0 = some f0 ∧ fieldToken d 1 1 = some c1 ∧
      fieldToken d 1 2 = some c2 ∧ fieldToken d 2 1 = some m1 ∧ fieldToken d 2 2 = some m2 := by
  obtain ⟨f0, h0⟩ := confField_zero d
  have hne : ¬ (fieldToken d 1 1 = none ∨ fieldToken d 1 2 = none ∨
      fieldToken d 2 1 = none ∨ fieldToken d 2 2 = none) := by
    intro hn
    rw [(getHardwareDetail_eq_none_iff d).mpr hn] at h
    exact Option.noConfusion h
  simp only [not_or] at hne
  obtain ⟨a1, a2, a3, a4⟩ := hne
  obtain ⟨c1, hc1⟩ := Option.ne_none_iff_exists'.mp a1
  obtain ⟨c2, hc2⟩ := Option.ne_none_iff_exists'.mp a2
  obtain ⟨m1, hm1⟩ := Option.ne_none_iff_exists'.mp a3
  obtain ⟨m2, hm2⟩ := Option.ne_none_iff_exists'.mp a4
  exact ⟨f0, c1, c2, m1, m2, h0, hc1, hc2, hm1, hm2⟩

/-- C2, refuted as stated: a description with two parts makes the parser fault
with an index out of range; no zero-valued result is returned. -/
theorem two_part_description_faults :
    (strings.Split "CPU Only · 4 Core" "·").length = 2 ∧
    getHardwareDetail "CPU Only · 4 Core" = none ∧
    getHardwareDetail "CPU Only · 4 Core" ≠ some Resource.zero := by
  decide

/-- C2, amended: for every description with fewer than 3 parts between `"·"`
separators the part `confSplits[2]` that the parser indexes does not exist, and
`getHardwareDetail` returns no resource spec at all, neither the zero-valued one nor
any other: it faults with an index out of range. -/
theorem getHardwareDetail_short_faults (description : String)
    (h : (strings.Split description "·").length < 3) :
    confField description 2 = none ∧
    getHardwareDetail description = none ∧
    getHardwareDetail description ≠ some Resource.zero ∧
    ∀ r : Resource, getHardwareDetail description ≠ some r := by
  have hnone : getHardwareDetail description = none := by
    rw [getHardwareDetail_eq_none_iff]
    right; right; left
    unfold fieldToken
    rw [confField_none_of_short description h]
    rfl
  refine ⟨confField_none_of_short description h, hnone, ?_, ?_⟩
  · rw [hnone]
    exact fun e => Option.noConfusion e
  · intro r
    rw [hnone]
    exact fun e => Option.noConfusion e

/-- C2, amended, at the one-part description `Nvidia 3080` and at the two-part
description `CPU Only ·4`, whose second part has a single token. -/
theorem getHardwareDetail_short_faults_witness :
    ((strings.Split "Nvidia 3080" "·").length < 3 ∧
      confField "Nvidia 3080" 2 = none ∧
      getHardwareDetail "Nvidia 3080" = none ∧
      getHardwareDetail "Nvidia 3080" ≠ some Resource.zero ∧
      ∀ r : Resource, getHardwareDetail "Nvidia 3080" ≠ some r) ∧
    ((strings.Split "CPU Only ·4" "·").length < 3 ∧
      confField "CPU Only ·4" 2 = none ∧
      getHardwareDetail "CPU Only ·4" = none ∧
      getHardwareDetail "CPU Only ·4" ≠ some Resource.zero ∧
      ∀ r : Resource, getHardwareDetail "CPU Only ·4" ≠ some r) :=
  ⟨⟨by decide, getHardwareDetail_short_faults "Nvidia 3080" (by decide)⟩,
   ⟨by decide, getHardwareDetail_short_faults "CPU Only ·4" (by decide)⟩⟩

/-- C3, refuted as stated: count tokens that are digit strings out of the 64-bit
range give the nearest bound as quantity, not 0. -/
theorem count_out_of_range_is_clamped :
    (strconv.ParseInt "9223372036854775808").2 = some strconv.NumError.ErrRange ∧
    (strconv.ParseInt "-9223372036854775809").2 = some strconv.NumError.ErrRange ∧
    getHardwareDetail "Nvidia 3080 · 9223372036854775808 vCPU · -9223372036854775809 GiB" =
      some { Cpu := ⟨9223372036854775807, "vCPU"⟩, Memory := ⟨-9223372036854775808, "Gi"⟩,
             Gpu := ⟨1, "NVIDIA 3080"⟩, Storage := ⟨30, "Gi"⟩ } := by
  decide

/-- C3, amended: when the tokens at indices 1 and 2 of the second and third parts
exist, the parser returns, and for the CPU and the memory count token alike: a token
that `ParseInt` rejects with a syntax error gives quantity 0; a string of digits
(with or without `+`) denoting `2^63` or more gives `2^63 - 1`; a `-` followed by
digits denoting more than `2^63` gives `-2^63`. -/
theorem getHardwareDetail_count_unparsed (description c1 c2 m1 m2 : String)
    (hc1 : fieldToken description 1 1 = some c1) (hc2 : fieldToken description 1 2 = some c2)
    (hm1 : fieldToken description 2 1 = some m1) (hm2 : fieldToken description 2 2 = some m2) :
    ∃ r, getHardwareDetail description = some r ∧
      ∀ (tok : String) (q : Int),
        (tok = c1 ∧ q = r.Cpu.Quantity) ∨ (tok = m1 ∧ q = r.Memory.Quantity) →
        ((strconv.ParseInt tok).2 = some strconv.NumError.ErrSyntax → q = 0) ∧
        ∀ ds : String, ds.data ≠ [] → (∀ c ∈ ds.data, isDecimalDigit c = true) →
          (tok = ds ∨ tok = "+" ++ ds → 2 ^ 63 ≤ decimalValue ds → q = 2 ^ 63 - 1) ∧
          (tok = "-" ++ ds → 2 ^ 63 < decimalValue ds → q = -2 ^ 63) := by
  obtain ⟨f0, h0⟩ := confField_zero description
  refine ⟨_, getHardwareDetail_of_tokens description f0 c1 c2 m1 m2 h0 hc1 hc2 hm1 hm2, ?_⟩
  have key : ∀ tok : String,
      ((strconv.ParseInt tok).2 = some strconv.NumError.ErrSyntax →
        (strconv.ParseInt tok).1 = 0) ∧
      ∀ ds : String, ds.data ≠ [] → (∀ c ∈ ds.data, isDecimalDigit c = true) →
        (tok = ds ∨ tok = "+" ++ ds → 2 ^ 63 ≤ decimalValue ds →
          (strconv.ParseInt tok).1 = 2 ^ 63 - 1) ∧
        (tok = "-" ++ ds → 2 ^ 63 < decimalValue ds → (strconv.ParseInt tok).1 = -2 ^ 63) := by
    intro tok
    refine ⟨strconv.parseIntChars_syntax tok.data, ?_⟩
    intro ds hne hd
    constructor
    · intro ht hv
      have hnot : ¬ decimalFold 0 ds.data < 2 ^ 63 := by
        unfold decimalValue at hv; omega
      rcases ht with rfl | rfl
      · unfold strconv.ParseInt
        rw [strconv.parseIntChars_digits _ hne hd, if_neg hnot]
      · have e : ("+" ++ ds).data = '+' :: ds.data := by simp [String.data_append]
        unfold strconv.ParseInt
        rw [e]
        simp only [strconv.parseIntChars]
        rw [if_pos True.intro, strconv.parseIntSigned_digits false _ hne hd]
        simp only [Bool.false_eq_true, if_false]
        rw [if_neg hnot]
    · rintro rfl hv
      have hnot : ¬ decimalFold 0 ds.data ≤ 2 ^ 63 := by
        unfold decimalValue at hv; omega
      have e : ("-" ++ ds).data = '-' :: ds.data := by simp [String.data_append]
      unfold strconv.ParseInt
      rw [e, strconv.parseIntChars_neg_digits _ hne hd, if_neg hnot]
  intro tok q hq
  rcases hq with ⟨rfl, rfl⟩ | ⟨rfl, rfl⟩
  · exact key tok
  · exact key tok

/-- C3, amended, at a description whose CPU count is `2^63` and whose memory count
is the word `lots`. -/
theorem getHardwareDetail_count_unparsed_witness :
    ∃ r, getHardwareDetail "Nvidia 3080 · 9223372036854775808 vCPU · lots GiB" = some r ∧
      ∀ (tok : String) (q : Int),
        (tok = "9223372036854775808" ∧ q = r.Cpu.Quantity) ∨
          (tok = "lots" ∧ q = r.Memory.Quantity) →
        ((strconv.ParseInt tok).2 = some strconv.NumError.ErrSyntax → q = 0) ∧
        ∀ ds : String, ds.data ≠ [] → (∀ c ∈ ds.data, isDecimalDigit c = true) →
          (tok = ds ∨ tok = "+" ++ ds → 2 ^ 63 ≤ decimalValue ds → q = 2 ^ 63 - 1) ∧
          (tok = "-" ++ ds → 2 ^ 63 < decimalValue ds → q = -2 ^ 63) :=
  getHardwareDetail_count_unparsed "Nvidia 3080 · 9223372036854775808 vCPU · lots GiB"
    "9223372036854775808" "vCPU" "lots" "GiB" (by decide) (by decide) (by decide) (by decide)

end computing

namespace computing

open models

/-- The GPU fields of a returned result. -/
theorem gpu_of_some (d f0 : String) (r : Resource) (h0 : confField d 0 = some f0)
    (h : getHardwareDetail d = some r) :
    r.Gpu = if strings.Contains f0 "CPU" then ⟨0, ""⟩
      else ⟨1, strings.ReplaceAll (strings.TrimSpace f0) "Nvidia" "NVIDIA"⟩ := by
  obtain ⟨g0, c1, c2, m1, m2, k0, hc1, hc2, hm1, hm2⟩ := tokens_of_some d r h
  rw [h0] at k0
  cases k0
  rw [getHardwareDetail_of_tokens d f0 c1 c2 m1 m2 h0 hc1 hc2 hm1 hm2] at h
  cases h
  rfl

/-- The normalised name is empty exactly when the part is all white space. -/
theorem normalised_eq_empty_iff (f0 : String) :
    strings.ReplaceAll (strings.TrimSpace f0) "Nvidia" "NVIDIA" = "" ↔
      ∀ c ∈ f0.data, unicode.IsSpace c = true := by
  rw [← strings.trim_eq_nil_iff]
  show String.mk (strings.replaceGo "Nvidia".data "NVIDIA".data
    ((f0.data.dropWhile unicode.IsSpace).rdropWhile unicode.IsSpace) 0) = String.mk [] ↔ _
  constructor
  · intro h
    have hnew : "NVIDIA".data ≠ [] := by decide
    exact strings.replaceGo_eq_nil _ _ _ hnew (congrArg String.data h)
  · intro h
    rw [h]
    rfl

/-- C4, refuted as stated: a first part that is empty or only white space gives
GPU quantity 1 together with the empty unit. -/
theorem blank_first_part_gives_gpu_one :
    getHardwareDetail " · 4 Core · 8 GB" =
      some { Cpu := ⟨4, "Core"⟩, Memory := ⟨8, "G"⟩, Gpu := ⟨1, ""⟩, Storage := ⟨30, "Gi"⟩ } ∧
    getHardwareDetail "· 4 Core · 8 GB" =
      some { Cpu := ⟨4, "Core"⟩, Memory := ⟨8, "G"⟩, Gpu := ⟨1, ""⟩, Storage := ⟨30, "Gi"⟩ } := by
  decide

/-- A list that contains a non-empty sublist contains its first character. -/
theorem head_mem_of_containsChars (c : Char) (sub : List Char) :
    ∀ s : List Char, strings.containsChars s (c :: sub) = true → c ∈ s := by
  intro s
  induction s with
  | nil =>
    intro h
    simp [strings.containsChars, List.isPrefixOf] at h
  | cons a cs ih =>
    intro h
    simp only [strings.containsChars, List.isPrefixOf, Bool.or_eq_true, Bool.and_eq_true,
      beq_iff_eq] at h
    rcases h with ⟨h1, -⟩ | h
    · rw [h1]
      exact List.mem_cons_self _ _
    · exact List.mem_cons_of_mem _ (ih h)

/-- A part that is empty or only white space does not contain `CPU`. -/
theorem blank_lacks_cpu_marker (f0 : String)
    (hb : ∀ c ∈ f0.data, unicode.IsSpace c = true) : strings.Contains f0 "CPU" = false := by
  cases hc : strings.Contains f0 "CPU" with
  | false => rfl
  | true =>
    have hmem : 'C' ∈ f0.data := head_mem_of_containsChars 'C' ['P', 'U'] f0.data hc
    have hsp := hb 'C' hmem
    have hno : ¬ (unicode.IsSpace 'C' = true) := by decide
    exact absurd hsp hno

/-- C4, amended: every returned result has GPU quantity 0 or 1, and quantity 0
implies the empty unit; the unit is empty exactly when the quantity is 0 or the
first part is empty or only white space; and a first part that is empty or only
white space gives the quantity 1 together with the empty unit. -/
theorem getHardwareDetail_gpu_fields (description f0 : String) (r : Resource)
    (h0 : confField description 0 = some f0)
    (h : getHardwareDetail description = some r) :
    (r.Gpu.Quantity = 0 ∨ r.Gpu.Quantity = 1) ∧
    (r.Gpu.Quantity = 0 → r.Gpu.Unit = "") ∧
    (r.Gpu.Unit = "" ↔
      r.Gpu.Quantity = 0 ∨ ∀ c ∈ f0.data, unicode.IsSpace c = true) ∧
    ((∀ c ∈ f0.data, unicode.IsSpace c = true) →
      r.Gpu.Quantity = 1 ∧ r.Gpu.Unit = "") := by
  have hg := gpu_of_some description f0 r h0 h
  by_cases hc : strings.Contains f0 "CPU" = true
  · have hnb : ¬ ∀ c ∈ f0.data, unicode.IsSpace c = true := by
      intro hb
      rw [blank_lacks_cpu_marker f0 hb] at hc
      exact Bool.noConfusion hc
    rw [if_pos hc] at hg
    rw [hg]
    refine ⟨Or.inl rfl, fun _ => rfl, ⟨fun _ => Or.inl rfl, fun _ => rfl⟩, ?_⟩
    intro hb
    exact absurd hb hnb
  · rw [if_neg hc] at hg
    rw [hg]
    have h10 : ¬ ((1 : Int) = 0) := by decide
    refine ⟨Or.inr rfl, fun h1 => absurd h1 h10, ?_, ?_⟩
    · show strings.ReplaceAll (strings.TrimSpace f0) "Nvidia" "NVIDIA" = "" ↔ _
      rw [normalised_eq_empty_iff]
      constructor
      · exact Or.inr
      · rintro (h1 | h1)
        · exact absurd h1 h10
        · exact h1
    · intro hb
      refine ⟨rfl, ?_⟩
      show strings.ReplaceAll (strings.TrimSpace f0) "Nvidia" "NVIDIA" = ""
      exact (normalised_eq_empty_iff f0).mpr hb

/-- C4, amended, at the description ` · 8 vCPU · 28 GiB`, whose first part is one
space, and at the description `Nvidia 3080 · 8 vCPU · 28 GiB`. -/
theorem getHardwareDetail_gpu_fields_witness :
    (confField " · 8 vCPU · 28 GiB" 0 = some " " ∧
      getHardwareDetail " · 8 vCPU · 28 GiB" =
        some { Cpu := ⟨8, "vCPU"⟩, Memory := ⟨28, "Gi"⟩, Gpu := ⟨1, ""⟩,
               Storage := ⟨30, "Gi"⟩ } ∧
      (∀ c ∈ " ".data, unicode.IsSpace c = true) ∧
      ((Specification.mk 1 "").Quantity = 0 ∨ (Specification.mk 1 "").Quantity = 1) ∧
      ((Specification.mk 1 "").Quantity = 0 → (Specification.mk 1 "").Unit = "") ∧
      ((Specification.mk 1 "").Unit = "" ↔
        (Specification.mk 1 "").Quantity = 0 ∨ ∀ c ∈ " ".data, unicode.IsSpace c = true) ∧
      ((∀ c ∈ " ".data, unicode.IsSpace c = true) →
        (Specification.mk 1 "").Quantity = 1 ∧ (Specification.mk 1 "").Unit = "")) ∧
    (confField "Nvidia 3080 · 8 vCPU · 28 GiB" 0 = some "Nvidia 3080 " ∧
      getHardwareDetail "Nvidia 3080 · 8 vCPU · 28 GiB" =
        some { Cpu := ⟨8, "vCPU"⟩, Memory := ⟨28, "Gi"⟩, Gpu := ⟨1, "NVIDIA 3080"⟩,
               Storage := ⟨30, "Gi"⟩ } ∧
      ((Specification.mk 1 "NVIDIA 3080").Quantity = 0 ∨
        (Specification.mk 1 "NVIDIA 3080").Quantity = 1) ∧
      ((Specification.mk 1 "NVIDIA 3080").Quantity = 0 →
        (Specification.mk 1 "NVIDIA 3080").Unit = "") ∧
      ((Specification.mk 1 "NVIDIA 3080").Unit = "" ↔
        (Specification.mk 1 "NVIDIA 3080").Quantity = 0 ∨
          ∀ c ∈ "Nvidia 3080 ".data, unicode.IsSpace c = true) ∧
      ((∀ c ∈ "Nvidia 3080 ".data, unicode.IsSpace c = true) →
        (Specification.mk 1 "NVIDIA 3080").Quantity = 1 ∧
          (Specification.mk 1 "NVIDIA 3080").Unit = "")) :=
  ⟨⟨by decide, by decide, by decide,
    getHardwareDetail_gpu_fields " · 8 vCPU · 28 GiB" " "
      { Cpu := ⟨8, "vCPU"⟩, Memory := ⟨28, "Gi"⟩, Gpu := ⟨1, ""⟩, Storage := ⟨30, "Gi"⟩ }
      (by decide) (by decide)⟩,
   ⟨by decide, by decide,
    getHardwareDetail_gpu_fields "Nvidia 3080 · 8 vCPU · 28 GiB" "Nvidia 3080 "
      { Cpu := ⟨8, "vCPU"⟩, Memory := ⟨28, "Gi"⟩, Gpu := ⟨1, "NVIDIA 3080"⟩,
        Storage := ⟨30, "Gi"⟩ } (by decide) (by decide)⟩⟩

/-- C5, refuted as stated: a description with 3 parts and `CPU` in the first makes
the parser fault when a later part lacks a token; nothing is yielded. -/
theorem cpu_marker_description_faults :
    (strings.Split "CPU only · 2 vCPU · 16GiB" "·").length = 3 ∧
    confField "CPU only · 2 vCPU · 16GiB" 0 = some "CPU only " ∧
    strings.Contains "CPU only " "CPU" = true ∧
    getHardwareDetail "CPU only · 2 vCPU · 16GiB" = none := by
  decide

/-- C5, amended: for every description whose second and third parts have tokens
at indices 1 and 2 (so that the parser does not fault) and whose first part
contains `CPU`, the parser returns GPU quantity 0 and GPU unit `""`. -/
theorem getHardwareDetail_cpu_marker (description f0 c1 c2 m1 m2 : String)
    (h0 : confField description 0 = some f0)
    (hc1 : fieldToken description 1 1 = some c1) (hc2 : fieldToken description 1 2 = some c2)
    (hm1 : fieldToken description 2 1 = some m1) (hm2 : fieldToken description 2 2 = some m2)
    (hcpu : strings.Contains f0 "CPU" = true) :
    ∃ r, getHardwareDetail description = some r ∧ r.Gpu.Quantity = 0 ∧ r.Gpu.Unit = "" := by
  refine ⟨_, getHardwareDetail_of_tokens description f0 c1 c2 m1 m2 h0 hc1 hc2 hm1 hm2, ?_⟩
  simp [hcpu]

/-- C5, amended, at the description `CPU only · 2 vCPU · 16 GiB`. -/
theorem getHardwareDetail_cpu_marker_witness :
    ∃ r, getHardwareDetail "CPU only · 2 vCPU · 16 GiB" = some r ∧
      r.Gpu.Quantity = 0 ∧ r.Gpu.Unit = "" :=
  getHardwareDetail_cpu_marker "CPU only · 2 vCPU · 16 GiB" "CPU only " "2" "vCPU" "16" "GiB"
    (by decide) (by decide) (by decide) (by decide) (by decide) (by decide)

/-- C6, refuted as stated: a description with 3 parts and an accelerator name in
the first makes the parser fault when a later part lacks a token. -/
theorem accelerator_description_faults :
    (strings.Split "Nvidia 3080·8 vCPU·28 GiB" "·").length = 3 ∧
    confField "Nvidia 3080·8 vCPU·28 GiB" 0 = some "Nvidia 3080" ∧
    strings.Contains "Nvidia 3080" "CPU" = false ∧
    getHardwareDetail "Nvidia 3080·8 vCPU·28 GiB" = none := by
  decide

/-- C6, amended: for every description whose second and third parts have tokens
at indices 1 and 2 and whose first part does not contain `CPU`, the parser returns
GPU quantity 1 and as GPU unit the first part, trimmed of surrounding white space,
with every `Nvidia` replaced by `NVIDIA`; that unit contains no `Nvidia`. -/
theorem getHardwareDetail_accelerator (description f0 c1 c2 m1 m2 : String)
    (h0 : confField description 0 = some f0)
    (hc1 : fieldToken description 1 1 = some c1) (hc2 : fieldToken description 1 2 = some c2)
    (hm1 : fieldToken description 2 1 = some m1) (hm2 : fieldToken description 2 2 = some m2)
    (hcpu : strings.Contains f0 "CPU" = false) :
    ∃ r, getHardwareDetail description = some r ∧ r.Gpu.Quantity = 1 ∧
      r.Gpu.Unit = strings.ReplaceAll (strings.TrimSpace f0) "Nvidia" "NVIDIA" ∧
      strings.Contains r.Gpu.Unit "Nvidia" = false := by
  refine ⟨_, getHardwareDetail_of_tokens description f0 c1 c2 m1 m2 h0 hc1 hc2 hm1 hm2, ?_⟩
  simp only [hcpu, Bool.false_eq_true, if_false, true_and]
  exact (strings.replaceGo_nvidia _ 0).1

/-- C6, amended, at the description `Nvidia 3080 · 8 vCPU · 28 GiB`. -/
theorem getHardwareDetail_accelerator_witness :
    ∃ r, getHardwareDetail "Nvidia 3080 · 8 vCPU · 28 GiB" = some r ∧ r.Gpu.Quantity = 1 ∧
      r.Gpu.Unit = strings.ReplaceAll (strings.TrimSpace "Nvidia 3080 ") "Nvidia" "NVIDIA" ∧
      strings.Contains r.Gpu.Unit "Nvidia" = false :=
  getHardwareDetail_accelerator "Nvidia 3080 · 8 vCPU · 28 GiB" "Nvidia 3080 " "8" "vCPU" "28"
    "GiB" (by decide) (by decide) (by decide) (by decide) (by decide) (by decide)

end computing

namespace computing

open models

/-- C7, refuted as stated: a `B` that is not the last character of the memory unit
token is removed as well. -/
theorem inner_B_is_removed :
    fieldToken "CPU only · 2 vCPU · 16 GBytes" 2 2 = some "GBytes" ∧
    getHardwareDetail "CPU only · 2 vCPU · 16 GBytes" =
      some { Cpu := ⟨2, "vCPU"⟩, Memory := ⟨16, "Gytes"⟩, Gpu := ⟨0, ""⟩,
             Storage := ⟨30, "Gi"⟩ } ∧
    fieldToken "CPU only · 2 vCPU · 16 BiB" 2 2 = some "BiB" ∧
    getHardwareDetail "CPU only · 2 vCPU · 16 BiB" =
      some { Cpu := ⟨2, "vCPU"⟩, Memory := ⟨16, "i"⟩, Gpu := ⟨0, ""⟩,
             Storage := ⟨30, "Gi"⟩ } := by
  decide

/-- C7, amended: when the tokens at indices 1 and 2 of the second and third parts
exist, the parsed memory unit is the memory unit token (index 2 of the third part)
with every `B` removed; so a token without `B` is unchanged and a token whose only
`B` is the last character loses just that one (`GiB` gives `Gi`). -/
theorem getHardwareDetail_memory_unit (description c1 c2 m1 m2 : String)
    (hc1 : fieldToken description 1 1 = some c1) (hc2 : fieldToken description 1 2 = some c2)
    (hm1 : fieldToken description 2 1 = some m1) (hm2 : fieldToken description 2 2 = some m2) :
    ∃ r, getHardwareDetail description = some r ∧ r.Memory.Unit = withoutB m2 ∧
      ('B' ∉ m2.data → r.Memory.Unit = m2) ∧
      (∀ u : String, m2 = u ++ "B" → 'B' ∉ u.data → r.Memory.Unit = u) := by
  obtain ⟨f0, h0⟩ := confField_zero description
  refine ⟨_, getHardwareDetail_of_tokens description f0 c1 c2 m1 m2 h0 hc1 hc2 hm1 hm2, ?_⟩
  have hfilter : ∀ l : List Char, 'B' ∉ l → l.filter (fun c => c != 'B') = l := by
    intro l hl
    rw [List.filter_eq_self]
    intro c hc
    simp only [bne_iff_ne, ne_eq]
    rintro rfl
    exact hl hc
  refine ⟨strings.ReplaceAll_B m2, ?_, ?_⟩
  · intro hB
    show strings.ReplaceAll m2 "B" "" = m2
    rw [strings.ReplaceAll_B, withoutB, hfilter _ hB]
  · rintro u rfl hB
    show strings.ReplaceAll (u ++ "B") "B" "" = u
    rw [strings.ReplaceAll_B, withoutB]
    have e : (u ++ "B").data = u.data ++ ['B'] := by simp [String.data_append]
    rw [e, List.filter_append, hfilter _ hB]
    simp

/-- C7, amended, at the description `Nvidia 3080 · 8 vCPU · 28 GiB`. -/
theorem getHardwareDetail_memory_unit_witness :
    ∃ r, getHardwareDetail "Nvidia 3080 · 8 vCPU · 28 GiB" = some r ∧
      r.Memory.Unit = withoutB "GiB" ∧
      ('B' ∉ "GiB".data → r.Memory.Unit = "GiB") ∧
      (∀ u : String, "GiB" = u ++ "B" → 'B' ∉ u.data → r.Memory.Unit = u) :=
  getHardwareDetail_memory_unit "Nvidia 3080 · 8 vCPU · 28 GiB" "8" "vCPU" "28" "GiB"
    (by decide) (by decide) (by decide) (by decide)

/-- C8, refuted as stated: a CPU unit token that ends in `B` keeps its `B`. -/
theorem cpu_unit_token_keeps_B :
    fieldToken "CPU only · 2 KB · 16 GiB" 1 2 = some "KB" ∧
    getHardwareDetail "CPU only · 2 KB · 16 GiB" =
      some { Cpu := ⟨2, "KB"⟩, Memory := ⟨16, "Gi"⟩, Gpu := ⟨0, ""⟩,
             Storage := ⟨30, "Gi"⟩ } := by
  decide

/-- C8, amended: when the tokens at indices 1 and 2 of the second and third parts
exist, the parsed CPU unit is the CPU unit token (index 2 of the second part)
unchanged, also when it ends in `B`; only the memory unit has its `B` removed. -/
theorem getHardwareDetail_cpu_unit (description c1 c2 m1 m2 : String)
    (hc1 : fieldToken description 1 1 = some c1) (hc2 : fieldToken description 1 2 = some c2)
    (hm1 : fieldToken description 2 1 = some m1) (hm2 : fieldToken description 2 2 = some m2) :
    ∃ r, getHardwareDetail description = some r ∧ r.Cpu.Unit = c2 ∧
      r.Memory.Unit = withoutB m2 := by
  obtain ⟨f0, h0⟩ := confField_zero description
  exact ⟨_, getHardwareDetail_of_tokens description f0 c1 c2 m1 m2 h0 hc1 hc2 hm1 hm2, rfl,
    strings.ReplaceAll_B m2⟩

/-- C8, amended, at the description `CPU only · 2 KB · 16 GiB`. -/
theorem getHardwareDetail_cpu_unit_witness :
    ∃ r, getHardwareDetail "CPU only · 2 KB · 16 GiB" = some r ∧ r.Cpu.Unit = "KB" ∧
      r.Memory.Unit = withoutB "GiB" :=
  getHardwareDetail_cpu_unit "CPU only · 2 KB · 16 GiB" "2" "KB" "16" "GiB"
    (by decide) (by decide) (by decide) (by decide)

end computing

/-! ## Lease renewal -/

namespace computing

/-- With both time stamps taken after the epoch the subtraction does not wrap:
an expiry before the clock reading gives a negative `leftTime`. -/
theorem leftTime_negative_of_past (expireTime now : Int) (h0 : 0 ≤ expireTime)
    (h1 : expireTime < now) (h2 : now < 2 ^ 63) :
    strconv.int64 (expireTime - now) = expireTime - now ∧
      strconv.int64 (expireTime - now) < 0 := by
  have e : strconv.int64 (expireTime - now) = expireTime - now :=
    strconv.int64_of_small _ (by norm_num only at h2 ⊢; omega) (by norm_num only at h2 ⊢; omega)
  exact ⟨e, by rw [e]; omega⟩

/-- C9: when the lease hash of the job is readable, its `expire_time` parses and
`leftTime = expireTime - now` is negative, `ReNewJob` leaves the store as it was and
the only command it issues is the `HMGET` that read the hash: no `HSET` on the
lease hash and no `SET` with `EX` on the primary key. -/
theorem ReNewJob_expired_no_mutation (REDIS_FULL_PREFIX : String) (jobData : RenewJobData)
    (nowLeft nowExpire : Int) (conn : redis.Conn) (fvs : List (String × String))
    (expireTimeStr : String) (expireTime : Int)
    (hup : conn.broken = false)
    (hhash : conn.store.lookup (REDIS_FULL_PREFIX ++ jobData.JobUuid) =
      some (redis.Value.hash fvs))
    (hexp : fvs.lookup "expire_time" = some expireTimeStr)
    (hparse : strconv.ParseInt (strings.TrimSpace expireTimeStr) = (expireTime, none))
    (hleft : strconv.int64 (expireTime - nowLeft) < 0) :
    (ReNewJob REDIS_FULL_PREFIX (some jobData) nowLeft nowExpire conn).conn.store = conn.store ∧
    (ReNewJob REDIS_FULL_PREFIX (some jobData) nowLeft nowExpire conn).conn.issued =
      conn.issued ++
        [redis.Command.HMGET (REDIS_FULL_PREFIX ++ jobData.JobUuid) renewFields] := by
  simp [ReNewJob, redis.Conn.Do, hup, redis.exec, hhash, redis.Strings, renewFields, hexp,
    hparse, hleft]

/-- C9 at a lease that expired at 900 and is renewed at 1000 by 300 seconds. -/
theorem ReNewJob_expired_no_mutation_witness :
    (ReNewJob "FULL:" (some ⟨"j1", 300⟩) 1000 1000
      ⟨[("FULL:j1", redis.Value.hash
          [("k8s_namespace", "ns"), ("expire_time", "900"), ("space_uuid", "u")]),
        ("j1", redis.Value.str "wait-delete" (some 600))], false, []⟩).conn.store =
      [("FULL:j1", redis.Value.hash
          [("k8s_namespace", "ns"), ("expire_time", "900"), ("space_uuid", "u")]),
        ("j1", redis.Value.str "wait-delete" (some 600))] ∧
    (ReNewJob "FULL:" (some ⟨"j1", 300⟩) 1000 1000
      ⟨[("FULL:j1", redis.Value.hash
          [("k8s_namespace", "ns"), ("expire_time", "900"), ("space_uuid", "u")]),
        ("j1", redis.Value.str "wait-delete" (some 600))], false, []⟩).conn.issued =
      [] ++ [redis.Command.HMGET ("FULL:" ++ "j1") renewFields] :=
  ReNewJob_expired_no_mutation "FULL:" ⟨"j1", 300⟩ 1000 1000
    ⟨[("FULL:j1", redis.Value.hash
        [("k8s_namespace", "ns"), ("expire_time", "900"), ("space_uuid", "u")]),
      ("j1", redis.Value.str "wait-delete" (some 600))], false, []⟩
    [("k8s_namespace", "ns"), ("expire_time", "900"), ("space_uuid", "u")] "900" 900
    (by decide) (by decide) (by decide) (by decide) (by decide)

/-- C10, the code at the failing inputs. With a broken connection the `HMGET` fails,
the handler writes the failure body and then, `leftTime` being 0, still issues the
`HSET` and the `SET` with `EX` and writes the two success bodies. With a key of the
wrong type under the hash name the `HMGET` fails as well and the `SET` resets the
primary key. With no hash stored for the job nothing is changed, and nothing is
written to the response either. -/
theorem ReNewJob_unreadable_lease :
    ReNewJob "FULL:" (some ⟨"j1", 300⟩) 1000 1000
        ⟨[("j1", redis.Value.str "wait-delete" (some 600))], true, []⟩ =
      { conn := ⟨[("j1", redis.Value.str "wait-delete" (some 600))], true,
          [redis.Command.HMGET "FULL:j1" renewFields,
           redis.Command.HSET "FULL:j1" [("k8s_namespace", ""), ("space_name", ""),
             ("expire_time", "1300"), ("space_uuid", "")],
           redis.Command.SETEX "j1" "wait-delete" 300]⟩,
        written := [(200, JSONBody.failedExpired), (200, JSONBody.statusSuccess),
          (200, JSONBody.createSuccess)] } ∧
    ReNewJob "FULL:" (some ⟨"j1", 300⟩) 1000 1000
        ⟨[("FULL:j1", redis.Value.str "x" none),
          ("j1", redis.Value.str "wait-delete" (some 600))], false, []⟩ =
      { conn := ⟨[("FULL:j1", redis.Value.str "x" none),
            ("j1", redis.Value.str "wait-delete" (some 300))], false,
          [redis.Command.HMGET "FULL:j1" renewFields,
           redis.Command.HSET "FULL:j1" [("k8s_namespace", ""), ("space_name", ""),
             ("expire_time", "1300"), ("space_uuid", "")],
           redis.Command.SETEX "j1" "wait-delete" 300]⟩,
        written := [(200, JSONBody.failedExpired), (200, JSONBody.statusSuccess),
          (200, JSONBody.createSuccess)] } ∧
    ReNewJob "FULL:" (some ⟨"j1", 300⟩) 1000 1000 ⟨[], false, []⟩ =
      { conn := ⟨[], false, [redis.Command.HMGET "FULL:j1" renewFields]⟩,
        written := [] } := by
  decide

end computing

/-! ## Decimal numerals -/

namespace strconv

open computing

theorem digitChar_digit (k : Nat) (hk : k < 10) :
    isDecimalDigit (Nat.digitChar k) = true ∧ (Nat.digitChar k).toNat - 48 = k := by
  interval_cases k <;> exact ⟨by decide, by decide⟩

theorem decimalFold_append (a : Nat) (xs ys : List Char) :
    decimalFold a (xs ++ ys) = decimalFold (decimalFold a xs) ys := by
  simp [decimalFold, List.foldl_append]

/-- The digits `Nat.toDigits` writes in front of its accumulator: they are
decimal digits, at least one, and they denote the number. -/
theorem toDigitsCore_spec (fuel : Nat) : ∀ (n : Nat) (ds : List Char), n < fuel →
    ∃ pre : List Char, Nat.toDigitsCore 10 fuel n ds = pre ++ ds ∧ pre ≠ [] ∧
      (∀ c ∈ pre, isDecimalDigit c = true) ∧
      ∀ a, decimalFold a pre = a * 10 ^ pre.length + n := by
  induction fuel with
  | zero => intro n ds h; omega
  | succ fuel ih =>
    intro n ds hn
    have hd := digitChar_digit (n % 10) (Nat.mod_lt _ (by norm_num))
    by_cases h0 : n / 10 = 0
    · refine ⟨[Nat.digitChar (n % 10)], by simp [Nat.toDigitsCore, h0], by simp, ?_, ?_⟩
      · intro c hc
        simp only [List.mem_singleton] at hc
        rw [hc]; exact hd.1
      · intro a
        have : n % 10 = n := Nat.mod_eq_of_lt (by omega)
        simp only [decimalFold, List.foldl, List.length_singleton, pow_one]
        rw [hd.2]; omega
    · have hlt : n / 10 < fuel := by omega
      obtain ⟨pre, e, hne, hdig, hval⟩ := ih (n / 10) (Nat.digitChar (n % 10) :: ds) hlt
      refine ⟨pre ++ [Nat.digitChar (n % 10)], ?_, by simp, ?_, ?_⟩
      · simp [Nat.toDigitsCore, h0, e]
      · intro c hc
        rcases List.mem_append.mp hc with h | h
        · exact hdig c h
        · simp only [List.mem_singleton] at h
          rw [h]; exact hd.1
      · intro a
        rw [decimalFold_append, hval a]
        simp only [decimalFold, List.foldl, List.length_append, List.length_singleton]
        rw [hd.2, pow_succ]
        have := Nat.div_add_mod n 10
        nlinarith [this]

theorem toDigits_spec (n : Nat) :
    Nat.toDigits 10 n ≠ [] ∧ (∀ c ∈ Nat.toDigits 10 n, isDecimalDigit c = true) ∧
      decimalFold 0 (Nat.toDigits 10 n) = n := by
  obtain ⟨pre, e, hne, hdig, hval⟩ := toDigitsCore_spec (n + 1) n [] (by omega)
  have e2 : Nat.toDigits 10 n = pre := by simpa [Nat.toDigits] using e
  rw [e2]
  exact ⟨hne, hdig, by simpa using hval 0⟩

theorem digit_not_space (c : Char) (h : isDecimalDigit c = true) :
    unicode.IsSpace c = false := by
  simp only [isDecimalDigit, Bool.and_eq_true, decide_eq_true_eq] at h
  have h1 : c.toNat ≤ 0xFF := by omega
  simp only [unicode.IsSpace, h1, if_true]
  simp
  omega

theorem trim_digits (l : List Char) (hd : ∀ c ∈ l, isDecimalDigit c = true) :
    (l.dropWhile unicode.IsSpace).rdropWhile unicode.IsSpace = l := by
  have key : ∀ m : List Char, (∀ c ∈ m, isDecimalDigit c = true) →
      m.dropWhile unicode.IsSpace = m := by
    intro m hm
    cases m with
    | nil => rfl
    | cons c cs => simp [List.dropWhile, digit_not_space c (hm c (by simp))]
  rw [key l hd, List.rdropWhile, key l.reverse (fun c hc => hd c (List.mem_reverse.mp hc))]
  simp

/-- What `strconv.Itoa` writes for a number from 0 below `2^63` is read back by
`ParseInt`, also through `TrimSpace`. -/
theorem ParseInt_toString (n : Int) (h0 : 0 ≤ n) (h1 : n < 2 ^ 63) :
    ParseInt (strings.TrimSpace (toString n)) = (n, none) := by
  obtain ⟨m, rfl⟩ := Int.eq_ofNat_of_zero_le h0
  obtain ⟨hne, hdig, hval⟩ := toDigits_spec m
  have e : (toString (m : Int)).data = Nat.toDigits 10 m := rfl
  unfold ParseInt strings.TrimSpace
  simp only [e, trim_digits _ hdig]
  rw [parseIntChars_digits _ hne hdig, hval]
  have : m < 2 ^ 63 := by exact_mod_cast h1
  rw [if_pos this]

end strconv

/-! ## The store -/

namespace redis

theorem lookup_put_same (key : String) (v : Value) (s : Store) :
    (put key v s).lookup key = some v := by
  induction s with
  | nil => simp [put, List.lookup]
  | cons p rest ih =>
    obtain ⟨k, w⟩ := p
    by_cases h : k = key
    · simp [put, h, List.lookup]
    · have h2 : (key == k) = false := by simpa using fun e => h e.symm
      simp [put, h, List.lookup, h2, ih]

theorem lookup_put_other (key k2 : String) (v : Value) (s : Store) (h : k2 ≠ key) :
    (put key v s).lookup k2 = s.lookup k2 := by
  induction s with
  | nil =>
    have h2 : (k2 == key) = false := by simpa using h
    simp [put, List.lookup, h2]
  | cons p rest ih =>
    obtain ⟨k, w⟩ := p
    by_cases hk : k = key
    · subst hk
      have h2 : (k2 == k) = false := by simpa using h
      simp [put, List.lookup, h2]
    · by_cases h3 : k2 = k
      · subst h3
        simp [put, hk, List.lookup]
      · have h4 : (k2 == k) = false := by simpa using h3
        simp [put, hk, List.lookup, h4, ih]

theorem lookup_setField_same (field value : String) (h : List (String × String)) :
    (setField field value h).lookup field = some value := by
  induction h with
  | nil => simp [setField, List.lookup]
  | cons p rest ih =>
    obtain ⟨f, w⟩ := p
    by_cases hf : f = field
    · simp [setField, hf, List.lookup]
    · have h2 : (field == f) = false := by simpa using fun e => hf e.symm
      simp [setField, hf, List.lookup, h2, ih]

theorem lookup_setField_other (field f2 value : String) (h : List (String × String))
    (hne : f2 ≠ field) :
    (setField field value h).lookup f2 = h.lookup f2 := by
  induction h with
  | nil =>
    have h2 : (f2 == field) = false := by simpa using hne
    simp [setField, List.lookup, h2]
  | cons p rest ih =>
    obtain ⟨f, w⟩ := p
    by_cases hf : f = field
    · subst hf
      have h2 : (f2 == f) = false := by simpa using hne
      simp [setField, List.lookup, h2]
    · by_cases h3 : f2 = f
      · subst h3
        simp [setField, hf, List.lookup]
      · have h4 : (f2 == f) = false := by simpa using h3
        simp [setField, hf, List.lookup, h4, ih]

end redis

namespace computing

theorem prefixed_ne (p k : String) (hp : p ≠ "") : p ++ k ≠ k := by
  intro h
  have hl := congrArg String.length h
  simp only [String.length_append] at hl
  have : p.length = 0 := by omega
  apply hp
  apply String.ext
  show p.data = []
  exact List.length_eq_zero.mp this

end computing

namespace computing

theorem int64_of_fits (x : Int) (h : fitsInt64 x) : strconv.int64 x = x := by
  unfold strconv.int64
  obtain ⟨h0, h1⟩ := h
  norm_num only at h0 h1 ⊢
  omega

/-- The run of `ReNewJob` on a readable lease that has not expired. -/
theorem ReNewJob_of_live (REDIS_FULL_PREFIX : String) (jobData : RenewJobData)
    (nowLeft nowExpire : Int) (conn : redis.Conn) (fvs : List (String × String))
    (expireTimeStr : String) (expireTime : Int)
    (hup : conn.broken = false)
    (hhash : conn.store.lookup (REDIS_FULL_PREFIX ++ jobData.JobUuid) =
      some (redis.Value.hash fvs))
    (hexp : fvs.lookup "expire_time" = some expireTimeStr)
    (hparse : strconv.ParseInt (strings.TrimSpace expireTimeStr) = (expireTime, none))
    (hleft : 0 ≤ strconv.int64 (expireTime - nowLeft)) :
    ReNewJob REDIS_FULL_PREFIX (some jobData) nowLeft nowExpire conn = 
      { conn := 
          (((⟨conn.store, false, conn.issued ++ [redis.Command.HMGET (REDIS_FULL_PREFIX ++ jobData.JobUuid) renewFields]⟩ : redis.Conn).Do
            (redis.Command.HSET (REDIS_FULL_PREFIX ++ jobData.JobUuid)
              [("k8s_namespace", (fvs.lookup "k8s_namespace").getD ""),
               ("space_name", (fvs.lookup "space_name").getD ""),
               ("expire_time", toString (strconv.int64
                  (strconv.int64 (nowExpire + strconv.int64 (expireTime - nowLeft)) + jobData.Duration))),
               ("space_uuid", (fvs.lookup "space_uuid").getD "")])).1.Do
            (redis.Command.SETEX jobData.JobUuid "wait-delete"
              (strconv.int64 (strconv.int64 (expireTime - nowLeft) + jobData.Duration)))).1,
        written := [(200, JSONBody.statusSuccess), (200, JSONBody.createSuccess)] } := by
  have hl : ¬ strconv.int64 (expireTime - nowLeft) < 0 := not_lt.mpr hleft
  simp [ReNewJob, redis.Conn.Do, hup, redis.exec, hhash, redis.Strings, renewFields, hexp,
    hparse, hl]

/-- The fields of a hash after the four pairs of `ReNewJob` were set on it. -/
theorem lookup_after_renew (h : List (String × String)) (a b c d : String) :
    ∃ h2, [("k8s_namespace", a), ("space_name", b), ("expire_time", c),
        ("space_uuid", d)].foldl (fun h fv => redis.setField fv.1 fv.2 h) h = h2 ∧
      h2.lookup "k8s_namespace" = some a ∧ h2.lookup "expire_time" = some c ∧
      h2.lookup "space_uuid" = some d := by
  refine ⟨_, rfl, ?_, ?_, ?_⟩
  · simp only [List.foldl]
    rw [redis.lookup_setField_other _ _ _ _ (by decide),
      redis.lookup_setField_other _ _ _ _ (by decide),
      redis.lookup_setField_other _ _ _ _ (by decide), redis.lookup_setField_same]
  · simp only [List.foldl]
    rw [redis.lookup_setField_other _ _ _ _ (by decide), redis.lookup_setField_same]
  · simp only [List.foldl]
    rw [redis.lookup_setField_same]

/-- C11, the code on an expired lease: after the failure body the handler goes on
to the two `c.JSON` calls at its end, so the response holds the failure body
followed by the two success bodies. -/
theorem ReNewJob_expired_response (REDIS_FULL_PREFIX : String) (jobData : RenewJobData)
    (nowLeft nowExpire : Int) (conn : redis.Conn) (fvs : List (String × String))
    (expireTimeStr : String) (expireTime : Int)
    (hup : conn.broken = false)
    (hhash : conn.store.lookup (REDIS_FULL_PREFIX ++ jobData.JobUuid) =
      some (redis.Value.hash fvs))
    (hexp : fvs.lookup "expire_time" = some expireTimeStr)
    (hparse : strconv.ParseInt (strings.TrimSpace expireTimeStr) = (expireTime, none))
    (hleft : strconv.int64 (expireTime - nowLeft) < 0) :
    (ReNewJob REDIS_FULL_PREFIX (some jobData) nowLeft nowExpire conn).written =
      [(200, JSONBody.failedExpired), (200, JSONBody.statusSuccess),
       (200, JSONBody.createSuccess)] := by
  simp [ReNewJob, redis.Conn.Do, hup, redis.exec, hhash, redis.Strings, renewFields, hexp,
    hparse, hleft]

/-- C11 at a lease that expired at 900 and is renewed at 1000 by 300 seconds. -/
theorem ReNewJob_expired_response_witness :
    (ReNewJob "FULL:" (some ⟨"j1", 300⟩) 1000 1000
      ⟨[("FULL:j1", redis.Value.hash
          [("k8s_namespace", "ns"), ("expire_time", "900"), ("space_uuid", "u")]),
        ("j1", redis.Value.str "wait-delete" (some 600))], false, []⟩).written =
      [(200, JSONBody.failedExpired), (200, JSONBody.statusSuccess),
       (200, JSONBody.createSuccess)] :=
  ReNewJob_expired_response "FULL:" ⟨"j1", 300⟩ 1000 1000
    ⟨[("FULL:j1", redis.Value.hash
        [("k8s_namespace", "ns"), ("expire_time", "900"), ("space_uuid", "u")]),
      ("j1", redis.Value.str "wait-delete" (some 600))], false, []⟩
    [("k8s_namespace", "ns"), ("expire_time", "900"), ("space_uuid", "u")] "900" 900
    (by decide) (by decide) (by decide) (by decide) (by decide)

/-- C12, refuted as stated: the primary key is not always reset to `leftTime + e`.
A lease that expires at 1600, renewed at 1000 with `e = -700`, has
`leftTime + e = -100`; a lease that expires at 1000, renewed at 1000 with `e = 0`,
has `leftTime + e = 0`. In both runs the server rejects the `SET` and the primary
key keeps its time to live of 600. With `e = 2^63 - 1` the sum wraps, and the hash
gets a negative `expire_time` that is not `now + leftTime + e`. -/
theorem renewal_total_not_positive_keeps_ttl :
    ((ReNewJob "FULL:" (some ⟨"j1", -700⟩) 1000 1000
      ⟨[("FULL:j1", redis.Value.hash
          [("k8s_namespace", "ns"), ("expire_time", "1600"), ("space_uuid", "u")]),
        ("j1", redis.Value.str "wait-delete" (some 600))], false, []⟩).conn.store.lookup "j1" =
      some (redis.Value.str "wait-delete" (some 600)) ∧
     ((1600 : Int) - 1000) + -700 = -100) ∧
    ((ReNewJob "FULL:" (some ⟨"j1", 0⟩) 1000 1000
      ⟨[("FULL:j1", redis.Value.hash
          [("k8s_namespace", "ns"), ("expire_time", "1000"), ("space_uuid", "u")]),
        ("j1", redis.Value.str "wait-delete" (some 600))], false, []⟩).conn.store.lookup "j1" =
      some (redis.Value.str "wait-delete" (some 600)) ∧
     ((1000 : Int) - 1000) + 0 = 0) ∧
    ((ReNewJob "FULL:" (some ⟨"j1", 9223372036854775807⟩) 1000 1000
      ⟨[("FULL:j1", redis.Value.hash
          [("k8s_namespace", "ns"), ("expire_time", "1600"), ("space_uuid", "u")]),
        ("j1", redis.Value.str "wait-delete" (some 600))], false, []⟩).conn.store =
      [("FULL:j1", redis.Value.hash
          [("k8s_namespace", "ns"), ("expire_time", "-9223372036854774209"),
           ("space_uuid", "u"), ("space_name", "")]),
        ("j1", redis.Value.str "wait-delete" (some 600))] ∧
     (1000 : Int) + (1600 - 1000) + 9223372036854775807 ≠ -9223372036854774209) := by
  decide

/-- C12, amended: for a readable lease with `leftTime = expireTime - now ≥ 0` and an
extension `e` such that `leftTime`, `now + leftTime`, `now + leftTime + e` and
`leftTime + e` fit `int64`, `ReNewJob` issues, after the `HMGET`, the `HSET` on the
lease hash with `expire_time = now + leftTime + e` next to the three fields it read
(in some order of the pairs), and the `SET` on the primary key with
`EX leftTime + e`. Afterwards the hash, whose key differs from the primary key when
`REDIS_FULL_PREFIX` is not empty, holds that `expire_time` (equal to the old expiry
plus `e` when both clock readings agree). When `leftTime + e > 0` the primary key
has the time to live `leftTime + e`; when `leftTime + e ≤ 0` the `SET` is rejected
and the primary key holds what it held before. -/
theorem ReNewJob_extends_lease (REDIS_FULL_PREFIX : String) (jobData : RenewJobData)
    (nowLeft nowExpire : Int) (conn : redis.Conn) (fvs : List (String × String))
    (expireTimeStr : String) (expireTime : Int)
    (hup : conn.broken = false)
    (hhash : conn.store.lookup (REDIS_FULL_PREFIX ++ jobData.JobUuid) =
      some (redis.Value.hash fvs))
    (hexp : fvs.lookup "expire_time" = some expireTimeStr)
    (hparse : strconv.ParseInt (strings.TrimSpace expireTimeStr) = (expireTime, none))
    (hleft : 0 ≤ expireTime - nowLeft)
    (hfit1 : fitsInt64 (expireTime - nowLeft))
    (hfit2 : fitsInt64 (nowExpire + (expireTime - nowLeft)))
    (hfit3 : fitsInt64 (nowExpire + (expireTime - nowLeft) + jobData.Duration))
    (hfit4 : fitsInt64 (expireTime - nowLeft + jobData.Duration)) :
    (∃ pairs : List (String × String),
      pairs.Perm
        [("k8s_namespace", (fvs.lookup "k8s_namespace").getD ""),
         ("space_name", (fvs.lookup "space_name").getD ""),
         ("expire_time", toString (nowExpire + (expireTime - nowLeft) + jobData.Duration)),
         ("space_uuid", (fvs.lookup "space_uuid").getD "")] ∧
      (ReNewJob REDIS_FULL_PREFIX (some jobData) nowLeft nowExpire conn).conn.issued =
        conn.issued ++
          [redis.Command.HMGET (REDIS_FULL_PREFIX ++ jobData.JobUuid) renewFields,
           redis.Command.HSET (REDIS_FULL_PREFIX ++ jobData.JobUuid) pairs,
           redis.Command.SETEX jobData.JobUuid "wait-delete"
             (expireTime - nowLeft + jobData.Duration)]) ∧
    (REDIS_FULL_PREFIX ≠ "" → ∃ h,
      (ReNewJob REDIS_FULL_PREFIX (some jobData) nowLeft nowExpire conn).conn.store.lookup
        (REDIS_FULL_PREFIX ++ jobData.JobUuid) = some (redis.Value.hash h) ∧
      h.lookup "expire_time" =
        some (toString (nowExpire + (expireTime - nowLeft) + jobData.Duration)) ∧
      (nowLeft = nowExpire →
        h.lookup "expire_time" = some (toString (expireTime + jobData.Duration)))) ∧
    (0 < expireTime - nowLeft + jobData.Duration →
      (ReNewJob REDIS_FULL_PREFIX (some jobData) nowLeft nowExpire conn).conn.store.lookup
        jobData.JobUuid =
        some (redis.Value.str "wait-delete" (some (expireTime - nowLeft + jobData.Duration)))) ∧
    (expireTime - nowLeft + jobData.Duration ≤ 0 → REDIS_FULL_PREFIX ≠ "" →
      (ReNewJob REDIS_FULL_PREFIX (some jobData) nowLeft nowExpire conn).conn.store.lookup
        jobData.JobUuid = conn.store.lookup jobData.JobUuid) := by
  have e1 := int64_of_fits _ hfit1
  have hl : 0 ≤ strconv.int64 (expireTime - nowLeft) := by rw [e1]; exact hleft
  rw [ReNewJob_of_live REDIS_FULL_PREFIX jobData nowLeft nowExpire conn fvs expireTimeStr
    expireTime hup hhash hexp hparse hl]
  rw [e1, int64_of_fits _ hfit2, int64_of_fits _ hfit3, int64_of_fits _ hfit4]
  obtain ⟨h2, eh2, -, hexp2, -⟩ := lookup_after_renew fvs ((fvs.lookup "k8s_namespace").getD "")
    ((fvs.lookup "space_name").getD "")
    (toString (nowExpire + (expireTime - nowLeft) + jobData.Duration))
    ((fvs.lookup "space_uuid").getD "")
  refine ⟨?_, ?_, ?_, ?_⟩
  · refine ⟨_, List.Perm.refl _, ?_⟩
    simp [redis.Conn.Do]
  · intro hp
    have hne := prefixed_ne REDIS_FULL_PREFIX jobData.JobUuid hp
    refine ⟨h2, ?_, hexp2, ?_⟩
    · simp only [redis.Conn.Do, redis.exec, hhash, eh2]
      by_cases hpos : expireTime - nowLeft + jobData.Duration ≤ 0
      · simp [hpos, redis.lookup_put_same]
      · simp [hpos, redis.lookup_put_same, redis.lookup_put_other _ _ _ _ hne]
    · intro hnow
      rw [hexp2, hnow]
      congr 2
      omega
  · intro hpos
    have hnp : ¬ expireTime - nowLeft + jobData.Duration ≤ 0 := not_le.mpr hpos
    simp [redis.Conn.Do, redis.exec, hhash, hnp, redis.lookup_put_same]
  · intro hle hp
    have hne := prefixed_ne REDIS_FULL_PREFIX jobData.JobUuid hp
    simp only [redis.Conn.Do, redis.exec, hhash, eh2]
    simp [hle, redis.lookup_put_other _ _ _ _ hne.symm]

end computing

namespace computing

/-- C12, amended, at a lease that expires at 1600 and is renewed at 1000 by 300
seconds: the hash then holds the expiry 1900 and the primary key the time to live
900. -/
theorem ReNewJob_extends_lease_witness :
    (∃ h,
      (ReNewJob "FULL:" (some ⟨"j1", 300⟩) 1000 1000
        ⟨[("FULL:j1", redis.Value.hash
            [("k8s_namespace", "ns"), ("expire_time", "1600"), ("space_uuid", "u")]),
          ("j1", redis.Value.str "wait-delete" (some 600))], false, []⟩).conn.store.lookup
        ("FULL:" ++ "j1") = some (redis.Value.hash h) ∧
      h.lookup "expire_time" = some (toString ((1000 : Int) + (1600 - 1000) + 300)) ∧
      ((1000 : Int) = 1000 →
        h.lookup "expire_time" = some (toString ((1600 : Int) + 300)))) ∧
    (ReNewJob "FULL:" (some ⟨"j1", 300⟩) 1000 1000
      ⟨[("FULL:j1", redis.Value.hash
          [("k8s_namespace", "ns"), ("expire_time", "1600"), ("space_uuid", "u")]),
        ("j1", redis.Value.str "wait-delete" (some 600))], false, []⟩).conn.store.lookup "j1" =
      some (redis.Value.str "wait-delete" (some ((1600 : Int) - 1000 + 300))) :=
  have key := ReNewJob_extends_lease "FULL:" ⟨"j1", 300⟩ 1000 1000
    ⟨[("FULL:j1", redis.Value.hash
        [("k8s_namespace", "ns"), ("expire_time", "1600"), ("space_uuid", "u")]),
      ("j1", redis.Value.str "wait-delete" (some 600))], false, []⟩
    [("k8s_namespace", "ns"), ("expire_time", "1600"), ("space_uuid", "u")] "1600" 1600
    (by decide) (by decide) (by decide) (by decide) (by decide) (by decide) (by decide)
    (by decide) (by decide)
  ⟨key.2.1 (by decide), key.2.2.1 (by decide)⟩

/-- The store after `watchContainerRunningTime` registered a lease. -/
theorem watch_registered (REDIS_FULL_PREFIX key namespace_ spaceUuid : String)
    (runTime now : Int) (conn : redis.Conn)
    (hup : conn.broken = false) (hp : REDIS_FULL_PREFIX ≠ "")
    (hkind : ∀ v t, conn.store.lookup (REDIS_FULL_PREFIX ++ key) ≠ some (redis.Value.str v t))
    (hrun : 0 < runTime) :
    ∃ h, (watchContainerRunningTime REDIS_FULL_PREFIX key namespace_ spaceUuid runTime now
        conn).store =
        redis.put (REDIS_FULL_PREFIX ++ key) (redis.Value.hash h)
          (redis.put key (redis.Value.str "wait-delete" (some runTime)) conn.store) ∧
      (watchContainerRunningTime REDIS_FULL_PREFIX key namespace_ spaceUuid runTime now
        conn).broken = false ∧
      h.lookup "k8s_namespace" = some namespace_ ∧
      h.lookup "expire_time" = some (toString (strconv.int64 (now + runTime))) ∧
      h.lookup "space_uuid" = some spaceUuid := by
  have hne := prefixed_ne REDIS_FULL_PREFIX key hp
  have hnp : ¬ runTime ≤ 0 := not_le.mpr hrun
  have hfields : ∀ base : List (String × String), ∃ h,
      [("k8s_namespace", namespace_), ("expire_time", toString (strconv.int64 (now + runTime))),
        ("space_uuid", spaceUuid)].foldl (fun h fv => redis.setField fv.1 fv.2 h) base = h ∧
      h.lookup "k8s_namespace" = some namespace_ ∧
      h.lookup "expire_time" = some (toString (strconv.int64 (now + runTime))) ∧
      h.lookup "space_uuid" = some spaceUuid := by
    intro base
    refine ⟨_, rfl, ?_, ?_, ?_⟩
    · simp only [List.foldl]
      rw [redis.lookup_setField_other _ _ _ _ (by decide),
        redis.lookup_setField_other _ _ _ _ (by decide), redis.lookup_setField_same]
    · simp only [List.foldl]
      rw [redis.lookup_setField_other _ _ _ _ (by decide), redis.lookup_setField_same]
    · simp only [List.foldl]
      rw [redis.lookup_setField_same]
  cases hl : conn.store.lookup (REDIS_FULL_PREFIX ++ key) with
  | none =>
    obtain ⟨h, eh, p1, p2, p3⟩ := hfields []
    refine ⟨h, ?_, ?_, p1, p2, p3⟩
    · simp [watchContainerRunningTime, redis.Conn.Do, hup, redis.exec, hnp,
        redis.lookup_put_other _ _ _ _ hne, hl, eh]
    · simp [watchContainerRunningTime, redis.Conn.Do, hup, redis.exec, hnp]
  | some v =>
    cases v with
    | str s t => exact absurd hl (hkind s t)
    | hash fvs =>
      obtain ⟨h, eh, p1, p2, p3⟩ := hfields fvs
      refine ⟨h, ?_, ?_, p1, p2, p3⟩
      · simp [watchContainerRunningTime, redis.Conn.Do, hup, redis.exec, hnp,
          redis.lookup_put_other _ _ _ _ hne, hl, eh]
      · simp [watchContainerRunningTime, redis.Conn.Do, hup, redis.exec, hnp]

end computing

namespace computing

/-- The store after `ReNewJob` renewed a readable lease, the sums fitting `int64`
and the new time to live being positive. -/
theorem ReNewJob_live_store (REDIS_FULL_PREFIX : String) (jobData : RenewJobData)
    (nowLeft nowExpire : Int) (conn : redis.Conn) (fvs : List (String × String))
    (expireTimeStr : String) (expireTime : Int)
    (hup : conn.broken = false) (hp : REDIS_FULL_PREFIX ≠ "")
    (hhash : conn.store.lookup (REDIS_FULL_PREFIX ++ jobData.JobUuid) =
      some (redis.Value.hash fvs))
    (hexp : fvs.lookup "expire_time" = some expireTimeStr)
    (hparse : strconv.ParseInt (strings.TrimSpace expireTimeStr) = (expireTime, none))
    (hleft : 0 ≤ expireTime - nowLeft)
    (hfit1 : fitsInt64 (expireTime - nowLeft))
    (hfit2 : fitsInt64 (nowExpire + (expireTime - nowLeft)))
    (hfit3 : fitsInt64 (nowExpire + (expireTime - nowLeft) + jobData.Duration))
    (hfit4 : fitsInt64 (expireTime - nowLeft + jobData.Duration))
    (hpos : 0 < expireTime - nowLeft + jobData.Duration) :
    (ReNewJob REDIS_FULL_PREFIX (some jobData) nowLeft nowExpire conn).conn.store.lookup
        jobData.JobUuid =
      some (redis.Value.str "wait-delete" (some (expireTime - nowLeft + jobData.Duration))) ∧
    ∃ h, (ReNewJob REDIS_FULL_PREFIX (some jobData) nowLeft nowExpire conn).conn.store.lookup
        (REDIS_FULL_PREFIX ++ jobData.JobUuid) = some (redis.Value.hash h) ∧
      h.lookup "k8s_namespace" = some ((fvs.lookup "k8s_namespace").getD "") ∧
      h.lookup "expire_time" =
        some (toString (nowExpire + (expireTime - nowLeft) + jobData.Duration)) ∧
      h.lookup "space_uuid" = some ((fvs.lookup "space_uuid").getD "") := by
  have e1 := int64_of_fits _ hfit1
  have hl : 0 ≤ strconv.int64 (expireTime - nowLeft) := by rw [e1]; exact hleft
  rw [ReNewJob_of_live REDIS_FULL_PREFIX jobData nowLeft nowExpire conn fvs expireTimeStr
    expireTime hup hhash hexp hparse hl]
  rw [e1, int64_of_fits _ hfit2, int64_of_fits _ hfit3, int64_of_fits _ hfit4]
  obtain ⟨h2, eh2, q1, q2, q3⟩ := lookup_after_renew fvs ((fvs.lookup "k8s_namespace").getD "")
    ((fvs.lookup "space_name").getD "")
    (toString (nowExpire + (expireTime - nowLeft) + jobData.Duration))
    ((fvs.lookup "space_uuid").getD "")
  have hne := prefixed_ne REDIS_FULL_PREFIX jobData.JobUuid hp
  have hnp : ¬ expireTime - nowLeft + jobData.Duration ≤ 0 := not_le.mpr hpos
  refine ⟨?_, h2, ?_, q1, q2, q3⟩
  · simp [redis.Conn.Do, redis.exec, hhash, hnp, redis.lookup_put_same]
  · simp only [redis.Conn.Do, redis.exec, hhash, eh2]
    simp [hnp, redis.lookup_put_same, redis.lookup_put_other _ _ _ _ hne]

/-- C13: registering a lease with duration `d > 0` at time `now` and renewing it at
once with the extension `e ≥ 0` (no time elapsed, `now + d + e` fitting `int64`)
leaves the primary key with the time to live `d + e` and the lease hash with
`expire_time = now + d + e`, the namespace and the workload id of the registration
still in it; before the renewal the time to live is `d` and `expire_time` is
`now + d`. -/
theorem register_then_renew (REDIS_FULL_PREFIX key namespace_ spaceUuid : String)
    (d e now : Int) (conn : redis.Conn)
    (hup : conn.broken = false) (hp : REDIS_FULL_PREFIX ≠ "")
    (hkind : ∀ v t, conn.store.lookup (REDIS_FULL_PREFIX ++ key) ≠ some (redis.Value.str v t))
    (hnow : 0 ≤ now) (hd : 0 < d) (he : 0 ≤ e) (hfit : now + d + e < 9223372036854775808) :
    (watchContainerRunningTime REDIS_FULL_PREFIX key namespace_ spaceUuid d now
        conn).store.lookup key = some (redis.Value.str "wait-delete" (some d)) ∧
    (∃ h, (watchContainerRunningTime REDIS_FULL_PREFIX key namespace_ spaceUuid d now
        conn).store.lookup (REDIS_FULL_PREFIX ++ key) = some (redis.Value.hash h) ∧
      h.lookup "expire_time" = some (toString (now + d))) ∧
    (ReNewJob REDIS_FULL_PREFIX (some ⟨key, e⟩) now now
        (watchContainerRunningTime REDIS_FULL_PREFIX key namespace_ spaceUuid d now
          conn)).conn.store.lookup key =
      some (redis.Value.str "wait-delete" (some (d + e))) ∧
    ∃ h, (ReNewJob REDIS_FULL_PREFIX (some ⟨key, e⟩) now now
        (watchContainerRunningTime REDIS_FULL_PREFIX key namespace_ spaceUuid d now
          conn)).conn.store.lookup (REDIS_FULL_PREFIX ++ key) = some (redis.Value.hash h) ∧
      h.lookup "expire_time" = some (toString (now + d + e)) ∧
      h.lookup "k8s_namespace" = some namespace_ ∧
      h.lookup "space_uuid" = some spaceUuid := by
  obtain ⟨h1, hs, hb, p1, p2, p3⟩ := watch_registered REDIS_FULL_PREFIX key namespace_
    spaceUuid d now conn hup hp hkind hd
  have hne := prefixed_ne REDIS_FULL_PREFIX key hp
  have e0 : strconv.int64 (now + d) = now + d := int64_of_fits _ ⟨by omega, by omega⟩
  rw [e0] at p2
  have hhash : (watchContainerRunningTime REDIS_FULL_PREFIX key namespace_ spaceUuid d now
      conn).store.lookup (REDIS_FULL_PREFIX ++ key) = some (redis.Value.hash h1) := by
    rw [hs, redis.lookup_put_same]
  have hprim : (watchContainerRunningTime REDIS_FULL_PREFIX key namespace_ spaceUuid d now
      conn).store.lookup key = some (redis.Value.str "wait-delete" (some d)) := by
    rw [hs, redis.lookup_put_other _ _ _ _ (fun h => hne h.symm), redis.lookup_put_same]
  have hparse := strconv.ParseInt_toString (now + d) (by omega)
    (by norm_num only; omega)
  have hsub : now + d - now = d := by omega
  obtain ⟨r1, h2, r2, q1, q2, q3⟩ := ReNewJob_live_store REDIS_FULL_PREFIX ⟨key, e⟩ now now
    (watchContainerRunningTime REDIS_FULL_PREFIX key namespace_ spaceUuid d now conn)
    h1 (toString (now + d)) (now + d) hb hp hhash p2 hparse (by omega)
    ⟨by omega, by omega⟩ ⟨by omega, by omega⟩
    ⟨by show _ ≤ now + (now + d - now) + e; omega, by show now + (now + d - now) + e < _; omega⟩
    ⟨by show _ ≤ (now + d - now) + e; omega, by show (now + d - now) + e < _; omega⟩
    (by show 0 < (now + d - now) + e; omega)
  refine ⟨hprim, ⟨h1, hhash, p2⟩, ?_, h2, r2, ?_, ?_, ?_⟩
  · rw [r1]
    show some (redis.Value.str "wait-delete" (some (now + d - now + e))) = _
    rw [hsub]
  · rw [q2]
    show some (toString (now + (now + d - now) + e)) = _
    rw [hsub]
  · rw [q1, p1]; rfl
  · rw [q3, p3]; rfl

/-- C13 at the duration 600 and the extension 300, registered and renewed at
time 1000 on an empty store. -/
theorem register_then_renew_witness :
    (watchContainerRunningTime "FULL:" "j1" "ns" "u" 600 1000
        ⟨[], false, []⟩).store.lookup "j1" =
      some (redis.Value.str "wait-delete" (some 600)) ∧
    (∃ h, (watchContainerRunningTime "FULL:" "j1" "ns" "u" 600 1000
        ⟨[], false, []⟩).store.lookup ("FULL:" ++ "j1") = some (redis.Value.hash h) ∧
      h.lookup "expire_time" = some (toString ((1000 : Int) + 600))) ∧
    (ReNewJob "FULL:" (some ⟨"j1", 300⟩) 1000 1000
        (watchContainerRunningTime "FULL:" "j1" "ns" "u" 600 1000
          ⟨[], false, []⟩)).conn.store.lookup "j1" =
      some (redis.Value.str "wait-delete" (some (600 + 300))) ∧
    ∃ h, (ReNewJob "FULL:" (some ⟨"j1", 300⟩) 1000 1000
        (watchContainerRunningTime "FULL:" "j1" "ns" "u" 600 1000
          ⟨[], false, []⟩)).conn.store.lookup ("FULL:" ++ "j1") = some (redis.Value.hash h) ∧
      h.lookup "expire_time" = some (toString ((1000 : Int) + 600 + 300)) ∧
      h.lookup "k8s_namespace" = some "ns" ∧
      h.lookup "space_uuid" = some "u" :=
  register_then_renew "FULL:" "j1" "ns" "u" 600 300 1000 ⟨[], false, []⟩
    (by decide) (by decide) (fun v t h => by simp at h) (by decide) (by decide) (by decide)
    (by decide)

end computing

/-! ## The GPU pool -/

namespace computing

/-- Every count in the pool lies between 0 and `n`. -/
theorem acquireStore_bounded (pool : GpuPool) (gpuName : String) (loaded : Option Int) (n : Int)
    (hpool : ∀ k v, pool k = some v → 0 ≤ v ∧ v ≤ n)
    (hloaded : ∀ c, loaded = some c → 0 ≤ c ∧ c ≤ n)
    (hn : 0 ≤ n) (hfit : n + 1 < 9223372036854775808) :
    ∀ k v, acquireStore pool gpuName loaded k = some v → 0 ≤ v ∧ v ≤ n + 1 := by
  intro k v h
  cases loaded with
  | none =>
    simp only [acquireStore, GpuPool.Store] at h
    split at h
    · cases h; omega
    · have := hpool k v h; omega
  | some c =>
    have hc := hloaded c rfl
    simp only [acquireStore, GpuPool.Store] at h
    rw [int64_of_fits _ ⟨by omega, by omega⟩] at h
    split at h
    · cases h; omega
    · have := hpool k v h; omega

theorem releaseStore_bounded (pool : GpuPool) (gpuName : String) (loaded : Option Int) (n : Int)
    (hpool : ∀ k v, pool k = some v → 0 ≤ v ∧ v ≤ n)
    (hloaded : ∀ c, loaded = some c → 0 ≤ c ∧ c ≤ n)
    (hfit : n + 1 < 9223372036854775808) :
    ∀ k v, releaseStore pool gpuName loaded k = some v → 0 ≤ v ∧ v ≤ n + 1 := by
  intro k v h
  have hdel : ∀ k v, GpuPool.Delete pool gpuName k = some v → 0 ≤ v ∧ v ≤ n + 1 := by
    intro k v h
    simp only [GpuPool.Delete] at h
    split at h
    · cases h
    · have := hpool k v h; omega
  cases loaded with
  | none => exact hdel k v h
  | some c =>
    have hc := hloaded c rfl
    simp only [releaseStore] at h
    split at h
    · rename_i hpos
      simp only [GpuPool.Store] at h
      rw [int64_of_fits _ ⟨by omega, by omega⟩] at h
      split at h
      · cases h; omega
      · have := hpool k v h; omega
    · exact hdel k v h

theorem gpuRun_bounded (steps : List GpuStep) :
    ∀ (pool : GpuPool) (n : Int), 0 ≤ n →
      (∀ k v, pool k = some v → 0 ≤ v ∧ v ≤ n) →
      n + steps.length < 9223372036854775808 →
      ∀ k v, gpuRun pool steps k = some v → 0 ≤ v ∧ v ≤ n + steps.length := by
  induction steps with
  | nil =>
    intro pool n _ hpool _ k v h
    have := hpool k v h
    simpa [gpuRun] using this
  | cons step rest ih =>
    intro pool n hn hpool hfit k v h
    simp only [List.length_cons, Nat.cast_add, Nat.cast_one] at hfit ⊢
    have hstep : ∀ k v, (match step with
        | GpuStep.acquire gpuName => gpuAcquire pool gpuName
        | GpuStep.release gpuName => gpuRelease pool gpuName) k = some v →
        0 ≤ v ∧ v ≤ n + 1 := by
      intro k v h
      cases step with
      | acquire g =>
        exact acquireStore_bounded pool g (pool.Load g) n hpool (fun c hc => hpool g c hc) hn
          (by omega) k v h
      | release g =>
        simp only [gpuRelease] at h
        split at h
        · exact releaseStore_bounded pool g (pool.Load g) n hpool (fun c hc => hpool g c hc)
            (by omega) k v h
        · have := hpool k v h; omega
    have := ih _ (n + 1) (by omega) hstep (by omega) k v (by simpa [gpuRun] using h)
    omega

end computing

namespace computing

/-- The value a pending call loaded. -/
theorem pending_cases (p : Pending) : ∃ loaded, p = Pending.acquire loaded ∨ p = Pending.release loaded := by
  cases p with
  | acquire l => exact ⟨l, Or.inl rfl⟩
  | release l => exact ⟨l, Or.inr rfl⟩

theorem poolRun_bounded (gpuName : String) (moves : List PoolMove) :
    ∀ (s : PoolState) (n : Int), 0 ≤ n →
      (∀ k v, s.pool k = some v → 0 ≤ v ∧ v ≤ n) →
      (∀ c, (Pending.acquire (some c) ∈ s.pending ∨ Pending.release (some c) ∈ s.pending) →
        0 ≤ c ∧ c ≤ n) →
      n + moves.length < 9223372036854775808 →
      ∀ k v, (poolRun gpuName s moves).pool k = some v → 0 ≤ v ∧ v ≤ n + moves.length := by
  induction moves with
  | nil =>
    intro s n _ hpool _ _ k v h
    have := hpool k v h
    simpa [poolRun] using this
  | cons move rest ih =>
    intro s n hn hpool hpend hfit k v h
    simp only [List.length_cons, Nat.cast_add, Nat.cast_one] at hfit ⊢
    have hnext : (∀ k v, (poolStep gpuName s move).pool k = some v → 0 ≤ v ∧ v ≤ n + 1) ∧
        (∀ c, (Pending.acquire (some c) ∈ (poolStep gpuName s move).pending ∨
          Pending.release (some c) ∈ (poolStep gpuName s move).pending) →
          0 ≤ c ∧ c ≤ n + 1) := by
      have weak : ∀ c, 0 ≤ c ∧ c ≤ n → 0 ≤ c ∧ c ≤ n + 1 := fun c hc => ⟨hc.1, by omega⟩
      cases move with
      | loadAcquire =>
        refine ⟨fun k v h => weak v (hpool k v h), ?_⟩
        intro c hc
        simp only [poolStep, List.mem_append, List.mem_singleton, Pending.acquire.injEq,
          reduceCtorEq, or_false] at hc
        rcases hc with (hc | hc) | hc
        · exact weak c (hpend c (Or.inl hc))
        · exact weak c (hpool gpuName c hc.symm)
        · exact weak c (hpend c (Or.inr hc))
      | loadRelease =>
        refine ⟨fun k v h => weak v (hpool k v h), ?_⟩
        intro c hc
        simp only [poolStep, List.mem_append, List.mem_singleton, Pending.release.injEq,
          reduceCtorEq, or_false] at hc
        rcases hc with hc | hc | hc
        · exact weak c (hpend c (Or.inl hc))
        · exact weak c (hpend c (Or.inr hc))
        · exact weak c (hpool gpuName c hc.symm)
      | finish i =>
        have herase : ∀ p, p ∈ s.pending.eraseIdx i → p ∈ s.pending :=
          fun p hp => List.mem_of_mem_eraseIdx hp
        cases hi : s.pending[i]? with
        | none =>
          simp only [poolStep, hi]
          exact ⟨fun k v h => weak v (hpool k v h), fun c hc => weak c (hpend c hc)⟩
        | some p =>
          have hmem : p ∈ s.pending := List.getElem?_mem hi
          cases p with
          | acquire loaded =>
            simp only [poolStep, hi]
            refine ⟨acquireStore_bounded s.pool gpuName loaded n hpool ?_ hn (by omega), ?_⟩
            · intro c hc
              subst hc
              exact hpend c (Or.inl hmem)
            · intro c hc
              exact weak c (hpend c (hc.imp (herase _) (herase _)))
          | release loaded =>
            simp only [poolStep, hi]
            refine ⟨releaseStore_bounded s.pool gpuName loaded n hpool ?_ (by omega), ?_⟩
            · intro c hc
              subst hc
              exact hpend c (Or.inr hmem)
            · intro c hc
              exact weak c (hpend c (hc.imp (herase _) (herase _)))
    have := ih (poolStep gpuName s move) (n + 1) (by omega) hnext.1 hnext.2 (by omega) k v
      (by simpa [poolRun] using h)
    omega

/-- C14, refuted as stated: after one acquire and one release the model is still
in the pool, with the count 0. -/
theorem released_model_stays_with_zero :
    (gpuRun GpuPool.empty
      [GpuStep.acquire "NVIDIA-3080", GpuStep.release "NVIDIA-3080"]).Load "NVIDIA-3080" =
      some 0 := by
  decide

/-- C14, amended: after any sequence of acquire and release steps on the empty pool
(shorter than `2^63` steps) every model present in the pool has a count `≥ 0`. On
every pool, the release of a model with a count `c ≥ 1` stores `c - 1` and leaves
the model in the pool (from the count 1: present with the count 0); the release of
a model with a count `≤ 0`, or of an absent model, removes it; a release leaves
the entries of all other models alone; an acquire stores 1 for an absent model and
`c + 1` for a model with a count `c ≥ 0`, and leaves the entries of all other
models alone. -/
theorem gpu_counts_nonnegative (steps : List GpuStep)
    (hlen : steps.length < 2 ^ 63) :
    (∀ k v, (gpuRun GpuPool.empty steps).Load k = some v → 0 ≤ v) ∧
    (∀ (pool : GpuPool) (gpuName : String), gpuName ≠ "" →
      (∀ count : Int, pool.Load gpuName = some count → 0 < count → count < 2 ^ 63 →
        (gpuRelease pool gpuName).Load gpuName = some (count - 1)) ∧
      (∀ count : Int, pool.Load gpuName = some count → count ≤ 0 →
        (gpuRelease pool gpuName).Load gpuName = none) ∧
      (pool.Load gpuName = none → (gpuRelease pool gpuName).Load gpuName = none) ∧
      (∀ k, k ≠ gpuName → (gpuRelease pool gpuName).Load k = pool.Load k)) ∧
    (∀ (pool : GpuPool) (gpuName : String),
      (pool.Load gpuName = none → (gpuAcquire pool gpuName).Load gpuName = some 1) ∧
      (∀ count : Int, pool.Load gpuName = some count → 0 ≤ count → count + 1 < 2 ^ 63 →
        (gpuAcquire pool gpuName).Load gpuName = some (count + 1)) ∧
      (∀ k, k ≠ gpuName → (gpuAcquire pool gpuName).Load k = pool.Load k)) := by
  refine ⟨?_, ?_, ?_⟩
  · intro k v h
    have hl : (0 : Int) + steps.length < 9223372036854775808 := by
      have : (steps.length : Int) < 2 ^ 63 := by exact_mod_cast hlen
      norm_num only at this ⊢
      omega
    exact (gpuRun_bounded steps GpuPool.empty 0 (le_refl 0)
      (fun k v h => by simp [GpuPool.empty] at h) hl k v h).1
  · intro pool gpuName hg
    refine ⟨?_, ?_, ?_, ?_⟩
    · intro count h hpos hfit
      simp only [GpuPool.Load] at h
      have e : strconv.int64 (count - 1) = count - 1 := by
        apply int64_of_fits
        constructor
        · omega
        · norm_num only at hfit
          omega
      simp [gpuRelease, hg, releaseStore, GpuPool.Load, h, GpuPool.Store, hpos, e]
    · intro count h hle
      simp only [GpuPool.Load] at h
      have hnp : ¬ count > 0 := by omega
      simp [gpuRelease, hg, releaseStore, GpuPool.Load, h, GpuPool.Delete, hnp]
    · intro h
      simp only [GpuPool.Load] at h
      simp [gpuRelease, hg, releaseStore, GpuPool.Load, h, GpuPool.Delete]
    · intro k hk
      simp only [gpuRelease, if_pos hg, releaseStore, GpuPool.Load]
      cases pool gpuName with
      | none => simp [GpuPool.Delete, hk]
      | some count =>
        by_cases hpos : count > 0
        · simp [hpos, GpuPool.Store, hk]
        · simp [hpos, GpuPool.Delete, hk]
  · intro pool gpuName
    refine ⟨?_, ?_, ?_⟩
    · intro h
      simp only [GpuPool.Load] at h
      simp [gpuAcquire, acquireStore, GpuPool.Load, h, GpuPool.Store]
    · intro count h hpos hfit
      simp only [GpuPool.Load] at h
      have e : strconv.int64 (count + 1) = count + 1 := by
        apply int64_of_fits
        constructor
        · omega
        · norm_num only at hfit
          omega
      simp [gpuAcquire, acquireStore, GpuPool.Load, h, GpuPool.Store, e]
    · intro k hk
      simp only [gpuAcquire, acquireStore, GpuPool.Load]
      cases pool gpuName with
      | none => simp [GpuPool.Store, hk]
      | some count => simp [GpuPool.Store, hk]

/-- C14, amended, at two deploys of one model: after both releases the model is
present with the count 0, and a release at the count 2 stores the count 1. -/
theorem gpu_counts_nonnegative_witness :
    ((gpuRun GpuPool.empty
      [GpuStep.acquire "NVIDIA-3080", GpuStep.acquire "NVIDIA-3080",
       GpuStep.release "NVIDIA-3080", GpuStep.release "NVIDIA-3080"]).Load "NVIDIA-3080" =
      some 0 ∧ (0 : Int) ≤ 0) ∧
    ((gpuRun GpuPool.empty
      [GpuStep.acquire "NVIDIA-3080", GpuStep.acquire "NVIDIA-3080"]).Load "NVIDIA-3080" =
      some 2 ∧
     (gpuRelease (gpuRun GpuPool.empty
      [GpuStep.acquire "NVIDIA-3080", GpuStep.acquire "NVIDIA-3080"])
      "NVIDIA-3080").Load "NVIDIA-3080" = some (2 - 1)) :=
  ⟨⟨by decide,
    (gpu_counts_nonnegative
      [GpuStep.acquire "NVIDIA-3080", GpuStep.acquire "NVIDIA-3080",
       GpuStep.release "NVIDIA-3080", GpuStep.release "NVIDIA-3080"] (by decide)).1
      "NVIDIA-3080" 0 (by decide)⟩,
   ⟨by decide,
    ((gpu_counts_nonnegative
      [GpuStep.acquire "NVIDIA-3080", GpuStep.acquire "NVIDIA-3080",
       GpuStep.release "NVIDIA-3080", GpuStep.release "NVIDIA-3080"] (by decide)).2.1
      (gpuRun GpuPool.empty [GpuStep.acquire "NVIDIA-3080", GpuStep.acquire "NVIDIA-3080"])
      "NVIDIA-3080" (by decide)).1 2 (by decide) (by decide) (by decide)⟩⟩

/-- C15: for every sequence of moves on one model, where the `Load` and the `Store`
or `Delete` of the acquire and release steps of different calls interleave in any
order (fewer than `2^63` moves), no value in the pool is negative at any point of
the sequence. -/
theorem interleaved_counts_nonnegative (gpuName : String) (moves : List PoolMove)
    (hlen : moves.length < 2 ^ 63) (i : Nat) (k : String) (v : Int)
    (h : (poolRun gpuName ⟨GpuPool.empty, []⟩ (moves.take i)).pool.Load k = some v) :
    0 ≤ v := by
  have hlen2 : (moves.take i).length < 2 ^ 63 :=
    lt_of_le_of_lt (List.length_take_le' i moves) hlen
  have hl : (0 : Int) + (moves.take i).length < 9223372036854775808 := by
    have : ((moves.take i).length : Int) < 2 ^ 63 := by exact_mod_cast hlen2
    norm_num only at this ⊢
    omega
  exact (poolRun_bounded gpuName (moves.take i) ⟨GpuPool.empty, []⟩ 0 (le_refl 0)
    (fun k v h => by simp [GpuPool.empty] at h) (fun c hc => by simp at hc) hl k v h).1

/-- C15 at two releases that both load the count 1 before either stores: the
pool ends with the count 0. -/
theorem interleaved_counts_nonnegative_witness :
    (poolRun "NVIDIA-3080" ⟨GpuPool.empty, []⟩
      (List.take 6 [PoolMove.loadAcquire, PoolMove.finish 0, PoolMove.loadRelease,
        PoolMove.loadRelease, PoolMove.finish 0, PoolMove.finish 0])).pool.Load
      "NVIDIA-3080" = some 0 ∧ (0 : Int) ≤ 0 :=
  ⟨by decide,
   interleaved_counts_nonnegative "NVIDIA-3080"
    [PoolMove.loadAcquire, PoolMove.finish 0, PoolMove.loadRelease,
      PoolMove.loadRelease, PoolMove.finish 0, PoolMove.finish 0] (by decide) 6
    "NVIDIA-3080" 0 (by decide)⟩

end computing

/-! ## The deploy task -/

namespace computing

theorem gpuName_ne_empty (unit : String) (h : unit ≠ "") :
    strings.ReplaceAll unit " " "-" ≠ "" := by
  intro e
  apply h
  have e2 : strings.replaceGo [' '] ['-'] unit.data 0 = [] := congrArg String.data e
  exact String.ext (strings.replaceGo_eq_nil _ _ _ (by decide) e2)

/-- A run that does not reach the acquire step leaves the pool alone. -/
theorem DeploySpaceTask_of_no_acquire (run : DeployRun) (hostName : String) (pool : GpuPool)
    (h : ∀ d r, run.fetch = SpaceFetch.response 200 (some d) → d.length ≠ 0 →
      getHardwareDetail d = some r → r.Gpu.Unit = "") :
    (DeploySpaceTask run hostName pool).events = [] ∧
      (DeploySpaceTask run hostName pool).pool = pool := by
  obtain ⟨fetch, build, deploy⟩ := run
  cases fetch with
  | failed => simp [DeploySpaceTask, deployBody, gpuRelease]
  | response code decoded =>
    by_cases hc : code = 200
    · subst hc
      cases decoded with
      | none => simp [DeploySpaceTask, deployBody, gpuRelease]
      | some d =>
        by_cases hd : d.length = 0
        · simp [DeploySpaceTask, deployBody, gpuRelease, hd]
        · cases hr : getHardwareDetail d with
          | none => simp [DeploySpaceTask, deployBody, gpuRelease, hd, hr]
          | some r =>
            have hu := h d r rfl hd hr
            cases build with
            | panics => simp [DeploySpaceTask, deployBody, gpuRelease, hd, hr, hu]
            | error => simp [DeploySpaceTask, deployBody, gpuRelease, hd, hr, hu]
            | value b =>
              cases deploy <;> simp [DeploySpaceTask, deployBody, gpuRelease, hd, hr, hu]
    · simp [DeploySpaceTask, deployBody, gpuRelease, hc]

/-- A run that reaches the acquire step releases the same key once, however the
build and the deployment end. -/
theorem DeploySpaceTask_of_acquire (run : DeployRun) (hostName : String) (pool : GpuPool)
    (d : String) (r : models.Resource)
    (hf : run.fetch = SpaceFetch.response 200 (some d)) (hd : d.length ≠ 0)
    (hr : getHardwareDetail d = some r) (hu : r.Gpu.Unit ≠ "") :
    (DeploySpaceTask run hostName pool).events =
      [PoolEvent.acquired (strings.ReplaceAll r.Gpu.Unit " " "-"),
       PoolEvent.released (strings.ReplaceAll r.Gpu.Unit " " "-")] ∧
    (DeploySpaceTask run hostName pool).pool =
      gpuRelease (gpuAcquire pool (strings.ReplaceAll r.Gpu.Unit " " "-"))
        (strings.ReplaceAll r.Gpu.Unit " " "-") := by
  obtain ⟨fetch, build, deploy⟩ := run
  simp only at hf
  subst hf
  have hg := gpuName_ne_empty r.Gpu.Unit hu
  cases build with
  | panics => simp [DeploySpaceTask, deployBody, hd, hr, hu, hg]
  | error => simp [DeploySpaceTask, deployBody, hd, hr, hu, hg]
  | value b => cases deploy <;> simp [DeploySpaceTask, deployBody, hd, hr, hu, hg]

end computing

namespace computing

theorem length_ne_zero_of_parsed (d : String) (r : models.Resource)
    (hr : getHardwareDetail d = some r) : d.length ≠ 0 := by
  intro h
  have hd : d = "" := String.ext (List.length_eq_zero.mp h)
  subst hd
  have : getHardwareDetail "" = none := by decide
  rw [this] at hr
  exact Option.noConfusion hr

/-- C16: in every run of `DeploySpaceTask`, whatever the fetch, the build and the
deployment do (return, return an error, or panic), either no step on the pool is
issued and the pool is unchanged, or the acquire step is followed by exactly one
release step with the same, non-empty model key. No acquire runs on a fetch error,
an empty hardware description or a description without GPU unit; with a GPU unit
the acquire and the one release run on every exit path. -/
theorem DeploySpaceTask_release_matches_acquire (run : DeployRun) (hostName : String)
    (pool : GpuPool) :
    (((DeploySpaceTask run hostName pool).events = [] ∧
        (DeploySpaceTask run hostName pool).pool = pool) ∨
      ∃ gpuName, gpuName ≠ "" ∧
        (DeploySpaceTask run hostName pool).events =
          [PoolEvent.acquired gpuName, PoolEvent.released gpuName] ∧
        (DeploySpaceTask run hostName pool).pool =
          gpuRelease (gpuAcquire pool gpuName) gpuName) ∧
    (run.fetch = SpaceFetch.failed →
      (DeploySpaceTask run hostName pool).events = [] ∧
        (DeploySpaceTask run hostName pool).pool = pool) ∧
    (∀ code, run.fetch = SpaceFetch.response code (some "") →
      (DeploySpaceTask run hostName pool).events = [] ∧
        (DeploySpaceTask run hostName pool).pool = pool) ∧
    (∀ d r, run.fetch = SpaceFetch.response 200 (some d) → getHardwareDetail d = some r →
      r.Gpu.Unit = "" →
      (DeploySpaceTask run hostName pool).events = [] ∧
        (DeploySpaceTask run hostName pool).pool = pool) ∧
    (∀ d r, run.fetch = SpaceFetch.response 200 (some d) → getHardwareDetail d = some r →
      r.Gpu.Unit ≠ "" →
      (DeploySpaceTask run hostName pool).events =
        [PoolEvent.acquired (strings.ReplaceAll r.Gpu.Unit " " "-"),
         PoolEvent.released (strings.ReplaceAll r.Gpu.Unit " " "-")]) := by
  refine ⟨?_, ?_, ?_, ?_, ?_⟩
  · by_cases h : ∀ d r, run.fetch = SpaceFetch.response 200 (some d) → d.length ≠ 0 →
        getHardwareDetail d = some r → r.Gpu.Unit = ""
    · exact Or.inl (DeploySpaceTask_of_no_acquire run hostName pool h)
    · right
      push_neg at h
      obtain ⟨d, r, hf, hd, hr, hu⟩ := h
      obtain ⟨e1, e2⟩ := DeploySpaceTask_of_acquire run hostName pool d r hf hd hr hu
      exact ⟨_, gpuName_ne_empty r.Gpu.Unit hu, e1, e2⟩
  · intro hf
    apply DeploySpaceTask_of_no_acquire
    intro d r h
    rw [hf] at h
    exact SpaceFetch.noConfusion h
  · intro code hf
    apply DeploySpaceTask_of_no_acquire
    intro d r h hd
    rw [hf] at h
    cases h
    exact absurd rfl hd
  · intro d r hf hr hu
    apply DeploySpaceTask_of_no_acquire
    intro d2 r2 h _ hr2
    rw [hf] at h
    cases h
    rw [hr] at hr2
    cases hr2
    exact hu
  · intro d r hf hr hu
    exact (DeploySpaceTask_of_acquire run hostName pool d r hf
      (length_ne_zero_of_parsed d r hr) hr hu).1

end computing

/-! ## Teardown -/

namespace computing

/-- The poll loop from the counter value `count`, with as many queries made as
ticks counted: it ends, and where. -/
theorem pollLoop_spec (cluster : k8s.Cluster) (namespace_ spaceUuid : String) (fuel : Nat) :
    ∀ (count : Nat) (t : Teardown), count ≤ 19 → 20 ≤ count + fuel →
      ∃ q k e, pollLoop cluster namespace_ spaceUuid fuel count count t =
          some ⟨t.calls ++ List.replicate q (k8s.Call.GetPods namespace_ spaceUuid),
            t.errorsLogged + e, t.ticks + k⟩ ∧
        count + k ≤ 20 ∧ count + q ≤ 19 ∧
        (∀ i, count ≤ i → i + 1 < count + q → ¬ k8s.reportsNoPods (cluster.getPods i)) ∧
        ((1 ≤ q ∧ k = q ∧ k8s.reportsNoPods (cluster.getPods (count + q - 1))) ∨
          (count + k = 20 ∧ count + q = 19 ∧
            ∀ i, count ≤ i → i < 19 → ¬ k8s.reportsNoPods (cluster.getPods i))) := by
  induction fuel with
  | zero => intro count t h1 h2; omega
  | succ fuel ih =>
    intro count t h1 h2
    by_cases h19 : count = 19
    · subst h19
      refine ⟨0, 1, 0, by simp [pollLoop], by omega, by omega, fun i _ _ => by omega, ?_⟩
      exact Or.inr ⟨rfl, rfl, fun i _ _ => by omega⟩
    · have hlt : ¬ count + 1 ≥ 20 := by omega
      by_cases herr : (cluster.getPods count).2 = some k8s.APIError.other
      · obtain ⟨q, k, e, heq, b1, b2, b3, b4⟩ := ih (count + 1)
          ⟨t.calls ++ [k8s.Call.GetPods namespace_ spaceUuid], t.errorsLogged + 1, t.ticks + 1⟩
          (by omega) (by omega)
        have hno : ¬ k8s.reportsNoPods (cluster.getPods count) := fun h => h.2 herr
        refine ⟨q + 1, k + 1, e + 1, ?_, by omega, by omega, ?_, ?_⟩
        · simp only [pollLoop, hlt, if_false, herr, if_true, heq]
          simp [List.replicate_succ, Nat.add_assoc, Nat.add_comm 1]
        · intro i hi1 hi2
          by_cases hic : i = count
          · subst hic; exact hno
          · exact b3 i (by omega) (by omega)
        · rcases b4 with ⟨c1, c2, c3⟩ | ⟨c1, c2, c3⟩
          · left
            refine ⟨by omega, by omega, ?_⟩
            have : count + (q + 1) - 1 = count + 1 + q - 1 := by omega
            rw [this]; exact c3
          · right
            refine ⟨by omega, by omega, ?_⟩
            intro i hi1 hi2
            by_cases hic : i = count
            · subst hic; exact hno
            · exact c3 i (by omega) hi2
      · by_cases hpods : (cluster.getPods count).1 = true
        · obtain ⟨q, k, e, heq, b1, b2, b3, b4⟩ := ih (count + 1)
            ⟨t.calls ++ [k8s.Call.GetPods namespace_ spaceUuid], t.errorsLogged, t.ticks + 1⟩
            (by omega) (by omega)
          have hno : ¬ k8s.reportsNoPods (cluster.getPods count) := by
            intro h; rw [h.1] at hpods; exact Bool.noConfusion hpods
          refine ⟨q + 1, k + 1, e, ?_, by omega, by omega, ?_, ?_⟩
          · simp only [pollLoop, hlt, if_false, herr, hpods, Bool.not_true,
              Bool.false_eq_true, heq]
            simp [List.replicate_succ, Nat.add_assoc, Nat.add_comm 1]
          · intro i hi1 hi2
            by_cases hic : i = count
            · subst hic; exact hno
            · exact b3 i (by omega) (by omega)
          · rcases b4 with ⟨c1, c2, c3⟩ | ⟨c1, c2, c3⟩
            · left
              refine ⟨by omega, by omega, ?_⟩
              have : count + (q + 1) - 1 = count + 1 + q - 1 := by omega
              rw [this]; exact c3
            · right
              refine ⟨by omega, by omega, ?_⟩
              intro i hi1 hi2
              by_cases hic : i = count
              · subst hic; exact hno
              · exact c3 i (by omega) hi2
        · have hfalse : (cluster.getPods count).1 = false := by simpa using hpods
          refine ⟨1, 1, 0, ?_, by omega, by omega, fun i _ _ => by omega, ?_⟩
          · simp [pollLoop, hlt, herr, hfalse]
          · exact Or.inl ⟨le_refl 1, rfl, by simpa using ⟨hfalse, herr⟩⟩

end computing

namespace computing

theorem dropNotFound_other (e : Option k8s.APIError) :
    (k8s.dropNotFound e = some k8s.APIError.other) = (e = some k8s.APIError.other) := by
  cases e with
  | none => simp [k8s.dropNotFound]
  | some x => cases x <;> simp [k8s.dropNotFound]

theorem pollLoop_withoutNotFound (cluster : k8s.Cluster) (namespace_ spaceUuid : String)
    (fuel : Nat) : ∀ (count asked : Nat) (t : Teardown),
      pollLoop cluster.withoutNotFound namespace_ spaceUuid fuel count asked t =
        pollLoop cluster namespace_ spaceUuid fuel count asked t := by
  induction fuel with
  | zero => intro count asked t; rfl
  | succ fuel ih =>
    intro count asked t
    simp only [pollLoop, k8s.Cluster.withoutNotFound, dropNotFound_other]
    simp only [k8s.Cluster.withoutNotFound] at ih
    simp only [ih]

/-- C19: for every sequence of answers to the query for pods, the poll loop of
`deleteJob`, given room for 20 iterations or more, ends: after at most 20 ticks and at
most 19 (so at most 20) queries. It ends with the first query that reports no pods
when that is one of the first 19, and at the 20th tick, without a 20th query,
otherwise (pods always present, or the query failing every time). -/
theorem pollLoop_terminates (cluster : k8s.Cluster) (namespace_ spaceUuid : String)
    (t : Teardown) (fuel : Nat) (hfuel : 20 ≤ fuel) :
    ∃ q k e, pollLoop cluster namespace_ spaceUuid fuel 0 0 t =
        some ⟨t.calls ++ List.replicate q (k8s.Call.GetPods namespace_ spaceUuid),
          t.errorsLogged + e, t.ticks + k⟩ ∧
      k ≤ 20 ∧ q ≤ 19 ∧ q ≤ 20 ∧
      (∀ i, i + 1 < q → ¬ k8s.reportsNoPods (cluster.getPods i)) ∧
      ((1 ≤ q ∧ k = q ∧ k8s.reportsNoPods (cluster.getPods (q - 1))) ∨
        (k = 20 ∧ q = 19 ∧ ∀ i, i < 19 → ¬ k8s.reportsNoPods (cluster.getPods i))) := by
  obtain ⟨q, k, e, heq, b1, b2, b3, b4⟩ :=
    pollLoop_spec cluster namespace_ spaceUuid fuel 0 t (by omega) (by omega)
  refine ⟨q, k, e, heq, by omega, by omega, by omega, ?_, ?_⟩
  · intro i hi
    exact b3 i (Nat.zero_le i) (by omega)
  · rcases b4 with ⟨c1, c2, c3⟩ | ⟨c1, c2, c3⟩
    · left
      refine ⟨c1, c2, ?_⟩
      have : 0 + q - 1 = q - 1 := by omega
      rw [this] at c3; exact c3
    · right
      exact ⟨by omega, by omega, fun i hi => c3 i (Nat.zero_le i) hi⟩

/-- C19 at a cluster whose pods never go away. -/
theorem pollLoop_terminates_witness :
    ∃ q k e, pollLoop ⟨none, none, ([], none), none, none, none, fun _ => (true, none)⟩
        "ns" "u" 25 0 0 ⟨[], 0, 0⟩ =
        some ⟨[] ++ List.replicate q (k8s.Call.GetPods "ns" "u"), 0 + e, 0 + k⟩ ∧
      k ≤ 20 ∧ q ≤ 19 ∧ q ≤ 20 ∧
      (∀ i, i + 1 < q → ¬ k8s.reportsNoPods ((true, none) : Bool × Option k8s.APIError)) ∧
      ((1 ≤ q ∧ k = q ∧ k8s.reportsNoPods ((true, none) : Bool × Option k8s.APIError)) ∨
        (k = 20 ∧ q = 19 ∧
          ∀ i, i < 19 → ¬ k8s.reportsNoPods ((true, none) : Bool × Option k8s.APIError))) :=
  pollLoop_terminates ⟨none, none, ([], none), none, none, none, fun _ => (true, none)⟩
    "ns" "u" ⟨[], 0, 0⟩ 25 (by decide)

/-- C17: when no delete or get call of `deleteJob` fails with an error other than
not-found (in particular when every call succeeds), the calls are issued in this
order: delete ingress, delete service, get the image ids of the deployment, remove
each of these images, delete deployment, delete replica sets, delete pods, and then
only queries for pods. When one of the six delete or get calls fails with another
error, it is the last call issued. (The outcome of an image removal is not read.) -/
theorem deleteJob_order (names : NameConstants) (cluster : k8s.Cluster)
    (namespace_ spaceUuid : String) (fuel : Nat) (hfuel : 20 ≤ fuel) :
    (cluster.deleteIngress ≠ some k8s.APIError.other →
      cluster.deleteService ≠ some k8s.APIError.other →
      cluster.getDeploymentImages.2 ≠ some k8s.APIError.other →
      cluster.deleteDeployment ≠ some k8s.APIError.other →
      cluster.deleteDeployRs ≠ some k8s.APIError.other →
      cluster.deletePod ≠ some k8s.APIError.other →
      ∃ t q, deleteJob names cluster namespace_ spaceUuid fuel = some t ∧
        t.calls =
          [k8s.Call.DeleteIngress namespace_ (names.K8S_INGRESS_NAME_PREFIX ++ spaceUuid),
           k8s.Call.DeleteService namespace_ (names.K8S_SERVICE_NAME_PREFIX ++ spaceUuid),
           k8s.Call.GetDeploymentImages namespace_
             (names.K8S_DEPLOY_NAME_PREFIX ++ spaceUuid)] ++
          cluster.getDeploymentImages.1.map k8s.Call.RemoveImage ++
          [k8s.Call.DeleteDeployment namespace_ (names.K8S_DEPLOY_NAME_PREFIX ++ spaceUuid),
           k8s.Call.DeleteDeployRs namespace_ spaceUuid,
           k8s.Call.DeletePod namespace_ spaceUuid] ++
          List.replicate q (k8s.Call.GetPods namespace_ spaceUuid)) ∧
    (cluster.deleteIngress = some k8s.APIError.other →
      deleteJob names cluster namespace_ spaceUuid fuel =
        some ⟨[k8s.Call.DeleteIngress namespace_
          (names.K8S_INGRESS_NAME_PREFIX ++ spaceUuid)], 1, 0⟩) ∧
    (cluster.deleteIngress ≠ some k8s.APIError.other →
      cluster.deleteService = some k8s.APIError.other →
      deleteJob names cluster namespace_ spaceUuid fuel =
        some ⟨[k8s.Call.DeleteIngress namespace_ (names.K8S_INGRESS_NAME_PREFIX ++ spaceUuid),
          k8s.Call.DeleteService namespace_
            (names.K8S_SERVICE_NAME_PREFIX ++ spaceUuid)], 1, 0⟩) ∧
    (cluster.deleteIngress ≠ some k8s.APIError.other →
      cluster.deleteService ≠ some k8s.APIError.other →
      cluster.getDeploymentImages.2 = some k8s.APIError.other →
      deleteJob names cluster namespace_ spaceUuid fuel =
        some ⟨[k8s.Call.DeleteIngress namespace_ (names.K8S_INGRESS_NAME_PREFIX ++ spaceUuid),
          k8s.Call.DeleteService namespace_ (names.K8S_SERVICE_NAME_PREFIX ++ spaceUuid),
          k8s.Call.GetDeploymentImages namespace_
            (names.K8S_DEPLOY_NAME_PREFIX ++ spaceUuid)], 1, 0⟩) ∧
    (cluster.deleteIngress ≠ some k8s.APIError.other →
      cluster.deleteService ≠ some k8s.APIError.other →
      cluster.getDeploymentImages.2 ≠ some k8s.APIError.other →
      cluster.deleteDeployment = some k8s.APIError.other →
      deleteJob names cluster namespace_ spaceUuid fuel =
        some ⟨[k8s.Call.DeleteIngress namespace_ (names.K8S_INGRESS_NAME_PREFIX ++ spaceUuid),
          k8s.Call.DeleteService namespace_ (names.K8S_SERVICE_NAME_PREFIX ++ spaceUuid),
          k8s.Call.GetDeploymentImages namespace_
            (names.K8S_DEPLOY_NAME_PREFIX ++ spaceUuid)] ++
          cluster.getDeploymentImages.1.map k8s.Call.RemoveImage ++
          [k8s.Call.DeleteDeployment namespace_
            (names.K8S_DEPLOY_NAME_PREFIX ++ spaceUuid)], 1, 0⟩) ∧
    (cluster.deleteIngress ≠ some k8s.APIError.other →
      cluster.deleteService ≠ some k8s.APIError.other →
      cluster.getDeploymentImages.2 ≠ some k8s.APIError.other →
      cluster.deleteDeployment ≠ some k8s.APIError.other →
      cluster.deleteDeployRs = some k8s.APIError.other →
      deleteJob names cluster namespace_ spaceUuid fuel =
        some ⟨[k8s.Call.DeleteIngress namespace_ (names.K8S_INGRESS_NAME_PREFIX ++ spaceUuid),
          k8s.Call.DeleteService namespace_ (names.K8S_SERVICE_NAME_PREFIX ++ spaceUuid),
          k8s.Call.GetDeploymentImages namespace_
            (names.K8S_DEPLOY_NAME_PREFIX ++ spaceUuid)] ++
          cluster.getDeploymentImages.1.map k8s.Call.RemoveImage ++
          [k8s.Call.DeleteDeployment namespace_ (names.K8S_DEPLOY_NAME_PREFIX ++ spaceUuid),
           k8s.Call.DeleteDeployRs namespace_ spaceUuid], 1, 0⟩) ∧
    (cluster.deleteIngress ≠ some k8s.APIError.other →
      cluster.deleteService ≠ some k8s.APIError.other →
      cluster.getDeploymentImages.2 ≠ some k8s.APIError.other →
      cluster.deleteDeployment ≠ some k8s.APIError.other →
      cluster.deleteDeployRs ≠ some k8s.APIError.other →
      cluster.deletePod = some k8s.APIError.other →
      deleteJob names cluster namespace_ spaceUuid fuel =
        some ⟨[k8s.Call.DeleteIngress namespace_ (names.K8S_INGRESS_NAME_PREFIX ++ spaceUuid),
          k8s.Call.DeleteService namespace_ (names.K8S_SERVICE_NAME_PREFIX ++ spaceUuid),
          k8s.Call.GetDeploymentImages namespace_
            (names.K8S_DEPLOY_NAME_PREFIX ++ spaceUuid)] ++
          cluster.getDeploymentImages.1.map k8s.Call.RemoveImage ++
          [k8s.Call.DeleteDeployment namespace_ (names.K8S_DEPLOY_NAME_PREFIX ++ spaceUuid),
           k8s.Call.DeleteDeployRs namespace_ spaceUuid,
           k8s.Call.DeletePod namespace_ spaceUuid], 1, 0⟩) := by
  refine ⟨?_, ?_, ?_, ?_, ?_, ?_, ?_⟩
  · intro h1 h2 h3 h4 h5 h6
    obtain ⟨q, k, e, heq, -⟩ := pollLoop_spec cluster namespace_ spaceUuid fuel 0
      ⟨[k8s.Call.DeleteIngress namespace_ (names.K8S_INGRESS_NAME_PREFIX ++ spaceUuid),
         k8s.Call.DeleteService namespace_ (names.K8S_SERVICE_NAME_PREFIX ++ spaceUuid),
         k8s.Call.GetDeploymentImages namespace_
           (names.K8S_DEPLOY_NAME_PREFIX ++ spaceUuid)] ++
        cluster.getDeploymentImages.1.map k8s.Call.RemoveImage ++
        [k8s.Call.DeleteDeployment namespace_ (names.K8S_DEPLOY_NAME_PREFIX ++ spaceUuid),
         k8s.Call.DeleteDeployRs namespace_ spaceUuid,
         k8s.Call.DeletePod namespace_ spaceUuid], 0, 0⟩ (by omega) (by omega)
    refine ⟨⟨_, 0 + e, 0 + k⟩, q, ?_, rfl⟩
    simp only [deleteJob, h1, h2, h3, h4, h5, h6, if_false]
    simpa using heq
  · intro h1
    simp [deleteJob, h1]
  · intro h1 h2
    simp [deleteJob, h1, h2]
  · intro h1 h2 h3
    simp [deleteJob, h1, h2, h3]
  · intro h1 h2 h3 h4
    simp [deleteJob, h1, h2, h3, h4]
  · intro h1 h2 h3 h4 h5
    simp [deleteJob, h1, h2, h3, h4, h5]
  · intro h1 h2 h3 h4 h5 h6
    simp [deleteJob, h1, h2, h3, h4, h5, h6]

end computing

namespace computing

/-- C17 at a cluster where every call succeeds, with one image and the pods gone
at the first query. -/
theorem deleteJob_order_witness :
    ∃ t q, deleteJob ⟨"deploy-", "svc-", "ing-"⟩
        ⟨none, none, (["img1"], none), none, none, none, fun _ => (false, none)⟩
        "ns" "u" 20 = some t ∧
      t.calls =
        [k8s.Call.DeleteIngress "ns" ("ing-" ++ "u"),
         k8s.Call.DeleteService "ns" ("svc-" ++ "u"),
         k8s.Call.GetDeploymentImages "ns" ("deploy-" ++ "u")] ++
        ["img1"].map k8s.Call.RemoveImage ++
        [k8s.Call.DeleteDeployment "ns" ("deploy-" ++ "u"),
         k8s.Call.DeleteDeployRs "ns" "u",
         k8s.Call.DeletePod "ns" "u"] ++
        List.replicate q (k8s.Call.GetPods "ns" "u") :=
  (deleteJob_order ⟨"deploy-", "svc-", "ing-"⟩
    ⟨none, none, (["img1"], none), none, none, none, fun _ => (false, none)⟩
    "ns" "u" 20 (by decide)).1 (by decide) (by decide) (by decide) (by decide) (by decide)
    (by decide)

/-- C18: when every call of `deleteJob` answers not-found (no image ids, no pods),
the run goes through every step, logs no error and ends its poll with the first
query; and in general a run is the same whether a call answers not-found or
succeeds. -/
theorem deleteJob_all_gone (names : NameConstants) (cluster : k8s.Cluster)
    (namespace_ spaceUuid : String) (fuel : Nat) (hfuel : 1 ≤ fuel)
    (h1 : cluster.deleteIngress = some k8s.APIError.notFound)
    (h2 : cluster.deleteService = some k8s.APIError.notFound)
    (h3 : cluster.getDeploymentImages = ([], some k8s.APIError.notFound))
    (h4 : cluster.deleteDeployment = some k8s.APIError.notFound)
    (h5 : cluster.deleteDeployRs = some k8s.APIError.notFound)
    (h6 : cluster.deletePod = some k8s.APIError.notFound)
    (h7 : cluster.getPods 0 = (false, some k8s.APIError.notFound)) :
    deleteJob names cluster namespace_ spaceUuid fuel =
      some ⟨[k8s.Call.DeleteIngress namespace_ (names.K8S_INGRESS_NAME_PREFIX ++ spaceUuid),
          k8s.Call.DeleteService namespace_ (names.K8S_SERVICE_NAME_PREFIX ++ spaceUuid),
          k8s.Call.GetDeploymentImages namespace_ (names.K8S_DEPLOY_NAME_PREFIX ++ spaceUuid),
          k8s.Call.DeleteDeployment namespace_ (names.K8S_DEPLOY_NAME_PREFIX ++ spaceUuid),
          k8s.Call.DeleteDeployRs namespace_ spaceUuid,
          k8s.Call.DeletePod namespace_ spaceUuid,
          k8s.Call.GetPods namespace_ spaceUuid], 0, 1⟩ ∧
    ∀ (c : k8s.Cluster) (n : Nat),
      deleteJob names c.withoutNotFound namespace_ spaceUuid n =
        deleteJob names c namespace_ spaceUuid n := by
  constructor
  · obtain ⟨f, rfl⟩ : ∃ f, fuel = f + 1 := ⟨fuel - 1, by omega⟩
    simp [deleteJob, h1, h2, h3, h4, h5, h6, pollLoop, h7]
  · intro c n
    simp only [deleteJob, pollLoop_withoutNotFound]
    simp only [k8s.Cluster.withoutNotFound, dropNotFound_other]

/-- C18 at a second teardown in a row. -/
theorem deleteJob_all_gone_witness :
    deleteJob ⟨"deploy-", "svc-", "ing-"⟩
        ⟨some k8s.APIError.notFound, some k8s.APIError.notFound,
          ([], some k8s.APIError.notFound), some k8s.APIError.notFound,
          some k8s.APIError.notFound, some k8s.APIError.notFound,
          fun _ => (false, some k8s.APIError.notFound)⟩ "ns" "u" 20 =
      some ⟨[k8s.Call.DeleteIngress "ns" ("ing-" ++ "u"),
          k8s.Call.DeleteService "ns" ("svc-" ++ "u"),
          k8s.Call.GetDeploymentImages "ns" ("deploy-" ++ "u"),
          k8s.Call.DeleteDeployment "ns" ("deploy-" ++ "u"),
          k8s.Call.DeleteDeployRs "ns" "u",
          k8s.Call.DeletePod "ns" "u",
          k8s.Call.GetPods "ns" "u"], 0, 1⟩ :=
  (deleteJob_all_gone ⟨"deploy-", "svc-", "ing-"⟩
    ⟨some k8s.APIError.notFound, some k8s.APIError.notFound,
      ([], some k8s.APIError.notFound), some k8s.APIError.notFound,
      some k8s.APIError.notFound, some k8s.APIError.notFound,
      fun _ => (false, some k8s.APIError.notFound)⟩ "ns" "u" 20 (by decide)
    rfl rfl rfl rfl rfl rfl rfl).1

/-! ## Manifest mode -/

/-- What the loop over the environment does to the variable at each position. -/
theorem rewriteNextAuth_get (hostName : String) (env : List EnvVar) :
    ∀ (i : Nat) (v : EnvVar), env[i]? = some v →
      ((strings.Contains v.Name "NEXTAUTH_URL" = true ∧
          (∀ j w, j < i → env[j]? = some w →
            strings.Contains w.Name "NEXTAUTH_URL" = false) →
        (rewriteNextAuth hostName env)[i]? =
          some { v with Value := "https://" ++ hostName }) ∧
      ((strings.Contains v.Name "NEXTAUTH_URL" = false ∨
          ∃ j w, j < i ∧ env[j]? = some w ∧
            strings.Contains w.Name "NEXTAUTH_URL" = true) →
        (rewriteNextAuth hostName env)[i]? = some v)) := by
  induction env with
  | nil => intro i v h; simp at h
  | cons x xs ih =>
    intro i v h
    by_cases hx : strings.Contains x.Name "NEXTAUTH_URL" = true
    · cases i with
      | zero =>
        simp only [List.getElem?_cons_zero, Option.some.injEq] at h
        subst h
        constructor
        · intro _
          simp [rewriteNextAuth, hx]
        · rintro (h1 | ⟨j, w, hj, -, -⟩)
          · rw [hx] at h1; exact Bool.noConfusion h1
          · omega
      | succ i =>
        simp only [List.getElem?_cons_succ] at h
        constructor
        · rintro ⟨-, hall⟩
          have := hall 0 x (by omega) (by simp)
          rw [hx] at this; exact Bool.noConfusion this
        · intro _
          simp [rewriteNextAuth, hx, h]
    · have hxf : strings.Contains x.Name "NEXTAUTH_URL" = false := by simpa using hx
      cases i with
      | zero =>
        simp only [List.getElem?_cons_zero, Option.some.injEq] at h
        subst h
        constructor
        · rintro ⟨h1, -⟩
          rw [hxf] at h1; exact Bool.noConfusion h1
        · intro _
          simp [rewriteNextAuth, hxf]
      | succ i =>
        simp only [List.getElem?_cons_succ] at h
        obtain ⟨ih1, ih2⟩ := ih i v h
        constructor
        · rintro ⟨h1, hall⟩
          simp only [rewriteNextAuth, hxf, Bool.false_eq_true, if_false,
            List.getElem?_cons_succ]
          apply ih1
          refine ⟨h1, ?_⟩
          intro j w hj hw
          exact hall (j + 1) w (by omega) (by simpa using hw)
        · intro hcase
          simp only [rewriteNextAuth, hxf, Bool.false_eq_true, if_false,
            List.getElem?_cons_succ]
          apply ih2
          rcases hcase with h1 | ⟨j, w, hj, hw, hc⟩
          · exact Or.inl h1
          · right
            cases j with
            | zero =>
              simp only [List.getElem?_cons_zero, Option.some.injEq] at hw
              subst hw
              rw [hxf] at hc; exact Bool.noConfusion hc
            | succ j =>
              exact ⟨j, w, by omega, by simpa using hw, hc⟩

theorem rewriteNextAuth_length (hostName : String) (env : List EnvVar) :
    (rewriteNextAuth hostName env).length = env.length := by
  induction env with
  | nil => rfl
  | cons x xs ih =>
    by_cases hx : strings.Contains x.Name "NEXTAUTH_URL" = true
    · simp [rewriteNextAuth, hx]
    · simp [rewriteNextAuth, hx, ih]

end computing

namespace computing

/-- C20, refuted as stated: of two variables of the primary container whose names
contain `NEXTAUTH_URL` only the first is rewritten, and a variable of a dependency
container with that name is not rewritten at all. -/
theorem later_callback_variable_kept :
    manifestContainers "j" "w" "u" "host.x"
        ⟨"app", "img", [⟨"NEXTAUTH_URL", "x"⟩, ⟨"NEXTAUTH_URL_INTERNAL", "y"⟩],
          [⟨"db", "dbimg", [⟨"NEXTAUTH_URL", "z"⟩]⟩]⟩ =
      [⟨"u-db", "dbimg", [⟨"NEXTAUTH_URL", "z"⟩]⟩,
       ⟨"u-app", "img",
         [⟨"NEXTAUTH_URL", "https://host.x"⟩, ⟨"NEXTAUTH_URL_INTERNAL", "y"⟩,
          ⟨"wallet_address", "w"⟩, ⟨"space_uuid", "u"⟩, ⟨"result_url", "host.x"⟩,
          ⟨"job_uuid", "j"⟩]⟩] := by
  decide

/-- C20, amended: in manifest mode the submitted containers of an entry are its
dependency containers, each with its environment unchanged, and the primary
container. In the primary container the first declared variable whose name contains
`NEXTAUTH_URL` has the value `"https://" + hostName`; every other declared variable,
also a later one whose name contains `NEXTAUTH_URL`, keeps its value; four injected
variables follow the declared ones. -/
theorem manifest_env_rewritten (jobUuid creatorWallet spaceUuid hostName : String)
    (cr : ContainerResource) :
    ∃ primary : Container,
      manifestContainers jobUuid creatorWallet spaceUuid hostName cr =
        cr.Depends.map (fun depend =>
          ({ Name := spaceUuid ++ "-" ++ depend.Name, Image := depend.ImageName,
             Env := depend.Env } : Container)) ++ [primary] ∧
      primary.Env.length = cr.Env.length + 4 ∧
      ∀ (i : Nat) (v : EnvVar), cr.Env[i]? = some v →
        ((strings.Contains v.Name "NEXTAUTH_URL" = true ∧
            (∀ j w, j < i → cr.Env[j]? = some w →
              strings.Contains w.Name "NEXTAUTH_URL" = false) →
          primary.Env[i]? = some { v with Value := "https://" ++ hostName }) ∧
        ((strings.Contains v.Name "NEXTAUTH_URL" = false ∨
            ∃ j w, j < i ∧ cr.Env[j]? = some w ∧
              strings.Contains w.Name "NEXTAUTH_URL" = true) →
          primary.Env[i]? = some v)) := by
  refine ⟨_, rfl, ?_, ?_⟩
  · simp [rewriteNextAuth_length]
  · intro i v h
    have hi : i < (rewriteNextAuth hostName cr.Env).length := by
      rw [rewriteNextAuth_length]
      exact (List.getElem?_eq_some.mp h).1
    obtain ⟨g1, g2⟩ := rewriteNextAuth_get hostName cr.Env i v h
    constructor
    · intro hc
      show (rewriteNextAuth hostName cr.Env ++ _)[i]? = _
      rw [List.getElem?_append_left hi]
      exact g1 hc
    · intro hc
      show (rewriteNextAuth hostName cr.Env ++ _)[i]? = _
      rw [List.getElem?_append_left hi]
      exact g2 hc

end computing

/-! ## Host names -/

namespace computing

theorem receive_hostName_with_dot (Domain generated : String)
    (h : strings.HasPrefix Domain "." = true) :
    ReceiveJob.hostName Domain generated = generated ++ Domain := by
  simp [ReceiveJob.hostName, h]

theorem receive_hostName_without_dot (Domain generated : String)
    (h : strings.HasPrefix Domain "." = false) :
    ReceiveJob.hostName Domain generated = generated ++ "." ++ Domain := by
  simp [ReceiveJob.hostName, h, strings.Join]

/-- C21, the code with and without a leading `"."` in the domain: with an empty
result URI `RedeployJob` always resolves the generated string directly followed by the
domain. That is the host name of `ReceiveJob` when the domain begins with `"."`; when
it does not, `ReceiveJob` puts a `"."` between the two and `RedeployJob` does not,
so for the domain `example.com` the two resolve `abcdefghij.example.com` and
`abcdefghijexample.com`. -/
theorem RedeployJob_hostName_lacks_dot (Domain generated : String) (fetch : ResultFetch) :
    RedeployJob.hostName Domain "" fetch generated = some (generated ++ Domain) ∧
    (strings.HasPrefix Domain "." = true →
      RedeployJob.hostName Domain "" fetch generated =
        some (ReceiveJob.hostName Domain generated)) ∧
    (strings.HasPrefix Domain "." = false →
      ReceiveJob.hostName Domain generated = generated ++ "." ++ Domain ∧
      RedeployJob.hostName Domain "" fetch generated ≠
        some (ReceiveJob.hostName Domain generated)) ∧
    ReceiveJob.hostName "example.com" "abcdefghij" = "abcdefghij.example.com" ∧
    RedeployJob.hostName "example.com" "" ResultFetch.failed "abcdefghij" =
      some "abcdefghijexample.com" := by
  have hre : RedeployJob.hostName Domain "" fetch generated = some (generated ++ Domain) := by
    simp [RedeployJob.hostName]
  refine ⟨hre, ?_, ?_, by decide, by decide⟩
  · intro h
    rw [hre, receive_hostName_with_dot Domain generated h]
  · intro h
    refine ⟨receive_hostName_without_dot Domain generated h, ?_⟩
    rw [hre, receive_hostName_without_dot Domain generated h]
    intro e
    have hl := congrArg String.length (Option.some.inj e)
    simp only [String.length_append] at hl
    have h1 : (".".length : Nat) = 1 := by decide
    omega

end computing
